import Mathlib

/-!
Verification of the CBZ node pack (reader / collector / writer pipeline).

This file gives a shallow embedding of the pure decision logic of
`src/cbz_pack/nodes.py`:

* `unpack_cbz`      — the Archive Reader (`CBZUnpacker.unpack_cbz`);
* `collect_cbz_data` — the Archive Unit Collector (`CBZCollector.collect_cbz_data`);
* `export_cbz`      — the Archive Writer (`ExportCBZ.export_cbz`), together with
  `create_comic_info_xml`.

Modelling conventions:

* Filesystem, ZIP, XML and JSON codecs are external libraries (spec §1 treats
  them as already correct).  A source archive is modelled by `ZipSource`:
  its entry name list, an optional parsed `ComicInfo.xml` sidecar, a
  per-entry decoder (`none` = the page fails to decode) and the flags that
  drive the error paths (`pathExists`, `validZip`).
* Decoded images are opaque: every definition is polymorphic in `Img`.
* Metadata travels through the Python code as JSON text produced by
  `json.dumps` and re-read by `json.loads`.  Since `dumps`/`loads` round-trip
  a record exactly, metadata is modelled by its parsed value `MetaRecord`;
  the literal string "\x7b\x7d" (empty JSON object) is `MetaRecord.obj [] none`,
  and JSON text that fails to parse is `MetaRecord.malformed`.
* Python `dict`s preserve insertion order; they are modelled as ordered
  association lists with Python's update semantics (`dictSet`, `dictDel`).
* Python `str` ordering (used by `list.sort`) is lexicographic on code
  points, modelled by `strLtB`; `list.sort` is stable, modelled by the
  stable insertion sort `sortStr` (stable sorts agree extensionally).
* `os.path` helpers (`basename`, `dirname`, `splitext`, `join`) are modelled
  in their posix form, which is what the spec fixes for in-archive names.
-/

/-! ### Python string / path helpers -/

/-- Python `str.lower` (ASCII range, which covers the extension constants). -/
def str_lower (s : String) : String := ⟨s.data.map Char.toLower⟩

/-- Python `s.endswith(suffix)`. -/
def strEndsWith (s suffix : String) : Bool := suffix.data.isSuffixOf s.data

/-- Python `s.startswith(pre)`. -/
def strStartsWith (s pre : String) : Bool := pre.data.isPrefixOf s.data

/-- Strict lexicographic order on code points, Python `<` on `str`. -/
def strLtB : List Char → List Char → Bool
  | [], [] => false
  | [], _ :: _ => true
  | _ :: _, [] => false
  | a :: as, b :: bs => if a = b then strLtB as bs else decide (a.val < b.val)

/-- Stable insertion of `a` in front of the first strictly larger element. -/
def insertEnd (a : String) : List String → List String
  | [] => [a]
  | b :: bs => if strLtB a.data b.data then a :: b :: bs else b :: insertEnd a bs

/-- Python `list.sort()` on strings: a stable sort by code points.
(`list.sort` is Timsort; any stable sort computes the same list.) -/
def sortStr (l : List String) : List String := l.foldl (fun acc a => insertEnd a acc) []

/-- Character test used by the posix path helpers. -/
def notSlash (c : Char) : Bool := c ≠ '/'

/-- Character test used by the posix path helpers. -/
def isSlash (c : Char) : Bool := c = '/'

/-- Character test used by `splitext`. -/
def notDot (c : Char) : Bool := c ≠ '.'

/-- `os.path.basename` (posix): the part after the last slash. -/
def basename (p : String) : String := ⟨(p.data.reverse.takeWhile notSlash).reverse⟩

/-- `os.path.dirname` (posix): the part up to the last slash, with trailing
slashes stripped unless the head is all slashes. -/
def dirname (p : String) : String :=
  let head := (p.data.reverse.dropWhile notSlash).reverse
  if head.any notSlash then ⟨(head.reverse.dropWhile isSlash).reverse⟩ else ⟨head⟩

/-- `os.path.splitext` (posix): split off the extension at the last dot of the
final path segment (the rightmost dot right of the rightmost slash), unless
the characters between the last slash and that dot are all dots (leading-dot
files such as `.bashrc` have no extension). -/
def splitext (p : String) : String × String :=
  let rev := p.data.reverse
  let extRev := rev.takeWhile (fun c => notDot c && notSlash c)
  let rest := rev.dropWhile (fun c => notDot c && notSlash c)
  if rest.head? = some '.' ∧ ((rest.tail.takeWhile notSlash).any notDot) = true then
    (⟨rest.tail.reverse⟩, ⟨'.' :: extRev.reverse⟩)
  else (p, "")

/-- `os.path.join` (posix) on two components. -/
def joinPath (a b : String) : String :=
  if strStartsWith b "/" then b
  else if a = "" ∨ strEndsWith a "/" then a ++ b
  else a ++ "/" ++ b

/-- Python `f"\x7bn:04d\x7d"` for natural numbers: zero-pad to width four. -/
def pad4 (n : Nat) : String :=
  let s := toString n
  ⟨List.replicate (4 - s.length) '0'⟩ ++ s

/-! ### Error model

Python exception classes raised by the nodes.  `fileNotFoundError` carries no
interpolated path (the source message interpolates the path; the class and the
fixed text are what the claims classify by). -/

inductive PyError where
  | fileNotFoundError (msg : String)
  | valueError (msg : String)
  | runtimeError (msg : String)
deriving DecidableEq

/-! ### Metadata model -/

/-- A metadata record as it travels between the nodes: the parsed value of the
JSON string.  `obj fields pages` is a JSON object; scalar fields are kept as
an ordered association list, the optional `Pages` key (a list of per-page
attribute mappings) is split out, mirroring how both `parse_comic_info` and
`create_comic_info_xml` treat it.  `malformed` is text `json.loads` rejects. -/
inductive MetaRecord where
  | malformed
  | obj (fields : List (String × String)) (pages : Option (List (List (String × String))))
deriving DecidableEq

/-- Python `key in metadata` on the object's scalar fields. -/
def hasKey (k : String) (fields : List (String × String)) : Bool :=
  fields.any (fun kv => kv.1 = k)

/-- The 37 scalar `ComicInfo.xml` fields listed in `nodes.py` (used both by
`parse_comic_info` and `create_comic_info_xml`). -/
def comic_fields : List String :=
  ["Title", "Series", "Number", "Count", "Volume", "AlternateSeries",
   "AlternateNumber", "StoryTitle", "Summary", "Notes", "Year", "Month",
   "Day", "Writer", "Penciller", "Inker", "Colorist", "Letterer",
   "CoverArtist", "Editor", "Publisher", "Imprint", "Genre", "Web",
   "PageCount", "LanguageISO", "Format", "BlackAndWhite", "Manga",
   "Characters", "Teams", "Locations", "ScanInformation", "StoryArc",
   "SeriesGroup", "AgeRating", "CommunityRating"]

/-- The `Page` attributes recognised by `parse_comic_info`. -/
def page_attrs : List String := ["Image", "Type", "DoublePage", "ImageSize", "Key"]

/-- A `ComicInfo.xml` sidecar as found in a source archive: either text the
XML parser rejects (`ET.ParseError`, with the exception text), or a parsed
document, given as its tag→text mapping and the attribute mappings of the
`Page` children of an optional `Pages` element. -/
inductive ComicSidecar where
  | unparseable (excText : String)
  | doc (fields : List (String × String)) (pages : Option (List (List (String × String))))
deriving DecidableEq

/-- `parse_comic_info` (nodes.py lines 14-54): keep each recognised field whose
element exists with non-empty text; keep each `Page` whose recognised
attributes are non-empty; keep `Pages` only if some page survives.  Parse
errors degrade to a record with an `error` key. -/
def parse_comic_info (sc : ComicSidecar) : MetaRecord :=
  match sc with
  | .unparseable e => .obj [("error", "Failed to parse ComicInfo.xml: " ++ e)] none
  | .doc fields pages =>
      let scalar := comic_fields.filterMap (fun f =>
        match List.lookup f fields with
        | some t => if t = "" then none else some (f, t)
        | none => none)
      let pages' :=
        match pages with
        | none => none
        | some ps =>
            let kept := ps.filterMap (fun attrs =>
              let pi := page_attrs.filterMap (fun a => (List.lookup a attrs).map (fun v => (a, v)))
              if pi = [] then none else some pi)
            if kept = [] then none else some kept
      .obj scalar pages'

/-! ### Archive Reader (`CBZUnpacker.unpack_cbz`) -/

/-- The external world of one `unpack_cbz` call: what the filesystem and the
ZIP library report for the given path.  `hashRepr` is the decimal rendering of
Python's `hash(cbz_path)` (an integer, so its rendering never contains an
underscore). -/
structure ZipSource (Img : Type) where
  pathExists : Bool
  validZip : Bool
  namelist : List String
  comicInfo : Option ComicSidecar
  decode : String → Option Img
  hashRepr : String

/-- The extension allow-list of `unpack_cbz`. -/
def valid_extensions : List String :=
  [".jpg", ".jpeg", ".png", ".webp", ".bmp", ".gif", ".tiff"]

/-- An archive entry is a page entry: image extension (case-insensitive) and
not under `__MACOSX/`. -/
def isQualifying (f : String) : Bool :=
  valid_extensions.any (fun ext => strEndsWith (str_lower f) ext)
    && !(strStartsWith f "__MACOSX/")

/-- The reader's archive identity token:
`f"cbz_\x7bhash(cbz_path)\x7d_\x7bos.path.basename(cbz_path)\x7d"`. -/
def cbz_id_of (hashRepr cbz_path : String) : String :=
  "cbz_" ++ hashRepr ++ "_" ++ basename cbz_path

/-- The sort/offset/cap stage of `unpack_cbz` (lines 159-168), applied to the
already-filtered entry list. -/
def sort_offset_cap (image_files : List String) (sort_images : Bool)
    (start_index image_load_cap : Nat) : List String :=
  let image_files := if sort_images then sortStr image_files else image_files
  let image_files := image_files.drop start_index
  if image_load_cap > 0 then image_files.take image_load_cap else image_files

/-- Errors escaping the `try` block of `unpack_cbz` (lines 138-207). -/
inductive UnpackTryErr where
  | badZipFile
  | valueError (msg : String)
deriving DecidableEq

/-- Result of `unpack_cbz`. -/
structure UnpackOut (Img : Type) where
  images : List Img
  filenames : List String
  metadata : MetaRecord
  cbz_ids : List String
deriving DecidableEq

/-- `CBZUnpacker.unpack_cbz` (nodes.py lines 121-215).  The per-page loop
skips entries that fail to decode (printing a warning); the blanket
`except Exception` of the `try` block rewraps any exception other than
`BadZipFile` — including the reader's own "no valid image files" ValueError —
into a RuntimeError. -/
def unpack_cbz {Img : Type} (zs : ZipSource Img) (cbz_path : String)
    (image_load_cap start_index : Nat) (sort_images : Bool) :
    Except PyError (UnpackOut Img) :=
  if !zs.pathExists then .error (.fileNotFoundError "CBZ file not found.")
  else if !(strEndsWith (str_lower cbz_path) ".cbz") then
    .error (.valueError "File must have .cbz extension.")
  else
    let body : Except UnpackTryErr (MetaRecord × List String) :=
      if !zs.validZip then .error .badZipFile
      else
        let metadata : MetaRecord :=
          match zs.comicInfo with
          | some sc => parse_comic_info sc
          | none => .obj [("info", "No ComicInfo.xml found in CBZ file"),
                          ("filename", basename cbz_path)] none
        let image_files := zs.namelist.filter isQualifying
        if image_files = [] then
          .error (.valueError "No valid image files found in CBZ archive.")
        else
          .ok (metadata, sort_offset_cap image_files sort_images start_index image_load_cap)
    match body with
    | .error .badZipFile => .error (.valueError "Invalid CBZ file: not a valid ZIP archive.")
    | .error (.valueError msg) => .error (.runtimeError ("Error processing CBZ file: " ++ msg))
    | .ok (metadata, image_files) =>
        let pairs := image_files.filterMap (fun f => (zs.decode f).map (fun i => (i, f)))
        let images := pairs.map Prod.fst
        let filenames := pairs.map Prod.snd
        if images.isEmpty then .error (.valueError "No images could be loaded from the CBZ file.")
        else .ok ⟨images, filenames, metadata,
                  List.replicate images.length (cbz_id_of zs.hashRepr cbz_path)⟩

/-! ### Archive identity extraction (shared by both collector modes)

Python: `cbz_id.split('_', 2)[-1] if '_' in cbz_id else f"..." + ".cbz"`. -/

/-- The characters after the first underscore, if any. -/
def afterUnderscore : List Char → Option (List Char)
  | [] => none
  | c :: cs => if c = '_' then some cs else afterUnderscore cs

/-- `s.split('_', 2)[-1]` on the character list: drop up to two
underscore-terminated segments and return the remainder. -/
def split2last (cs : List Char) : List Char :=
  match afterUnderscore cs with
  | none => cs
  | some r1 =>
      match afterUnderscore r1 with
      | none => r1
      | some r2 => r2

/-- The collector's inverse extraction of a path from an archive id
(nodes.py lines 365 and 397). -/
def extract_cbz_path (cbz_id : String) : String :=
  if '_' ∈ cbz_id.data then ⟨split2last cbz_id.data⟩ else cbz_id ++ ".cbz"

/-! ### Ordered dictionaries (Python `dict` with insertion order) -/

/-- `key in d`. -/
def dictMem (k : String) (d : List (String × α)) : Bool := d.any (fun kv => kv.1 = k)

/-- `d[k]` as an option (first occurrence; keys of reachable states are
duplicate-free). -/
def dictGet? (k : String) (d : List (String × α)) : Option α :=
  (d.find? (fun kv => kv.1 = k)).map (·.2)

/-- `d[k] = v`: overwrite in place if present, else append at the end
(Python insertion-order semantics). -/
def dictSet (k : String) (v : α) : List (String × α) → List (String × α)
  | [] => [(k, v)]
  | kv :: rest => if kv.1 = k then (k, v) :: rest else kv :: dictSet k v rest

/-- `del d[k]`. -/
def dictDel (k : String) (d : List (String × α)) : List (String × α) :=
  d.filter (fun kv => kv.1 ≠ k)

/-- `d[k].append(x)` (the collector only calls this with `k` present). -/
def dictAppend (k : String) (x : α) (d : List (String × List α)) : List (String × List α) :=
  dictSet k ((dictGet? k d).getD [] ++ [x]) d

/-! ### Archive Unit Collector (`CBZCollector`) -/

/-- The collector's mutable per-ArchiveId tables (`__init__`, lines 308-312;
`expected_counts` is never read or written afterwards and is omitted). -/
structure CollectorState (Img : Type) where
  image_groups : List (String × List Img)
  filename_groups : List (String × List String)
  metadata_cache : List (String × MetaRecord)

/-- A fresh collector. -/
def emptyCollector (Img : Type) : CollectorState Img := ⟨[], [], []⟩

/-- One iteration of the submission loop (lines 376-383): one page delivered
under one archive id with one metadata value. -/
structure SubmitEntry (Img : Type) where
  img : Img
  fname : String
  meta : MetaRecord
  cbz_id : String

/-- `zip(images, filenames, metadata, cbz_ids)`. -/
def zip4Entries {Img : Type} :
    List Img → List String → List MetaRecord → List String → List (SubmitEntry Img)
  | i :: is, f :: fs, m :: ms, c :: cs => ⟨i, f, m, c⟩ :: zip4Entries is fs ms cs
  | _, _, _, _ => []

/-- The body of the submission loop (lines 377-383): create the group on first
sight of the id (caching that delivery's metadata), then append page and name. -/
def submitOne {Img : Type} (st : CollectorState Img) (e : SubmitEntry Img) :
    CollectorState Img :=
  let st :=
    if dictMem e.cbz_id st.image_groups then st
    else
      { image_groups := dictSet e.cbz_id [] st.image_groups
        filename_groups := dictSet e.cbz_id [] st.filename_groups
        metadata_cache := dictSet e.cbz_id e.meta st.metadata_cache }
  { image_groups := dictAppend e.cbz_id e.img st.image_groups
    filename_groups := dictAppend e.cbz_id e.fname st.filename_groups
    metadata_cache := st.metadata_cache }

/-- The whole submission loop. -/
def foldSubmits {Img : Type} (st : CollectorState Img) (entries : List (SubmitEntry Img)) :
    CollectorState Img :=
  entries.foldl submitOne st

/-- An emitted archive unit: the data appended to the four output lists for
one `cbz_id` in the emission loop (lines 391-410). -/
structure AssembledUnit (Img : Type) where
  images : List Img
  filenames : List String
  metadata : MetaRecord
  cbz_path : String

/-- The emission loop (lines 391-410): iterate over a snapshot of the keys of
`image_groups`, emit one unit per key, delete the key from all three tables.
The `metadata_cache` subscript is total in Python because the three tables are
updated in lockstep; absent keys default here. -/
def drainLoop {Img : Type} :
    List String → CollectorState Img → List (AssembledUnit Img) × CollectorState Img
  | [], st => ([], st)
  | id :: rest, st =>
      let u : AssembledUnit Img :=
        ⟨(dictGet? id st.image_groups).getD [],
         (dictGet? id st.filename_groups).getD [],
         (dictGet? id st.metadata_cache).getD (.obj [] none),
         extract_cbz_path id⟩
      let st' : CollectorState Img :=
        ⟨dictDel id st.image_groups, dictDel id st.filename_groups,
         dictDel id st.metadata_cache⟩
      let r := drainLoop rest st'
      (u :: r.1, r.2)

/-- Drain every pending group: the loop runs over `list(image_groups.keys())`. -/
def drainState {Img : Type} (st : CollectorState Img) :
    List (AssembledUnit Img) × CollectorState Img :=
  drainLoop (st.image_groups.map Prod.fst) st

/-- The units a drain of `st` emits. -/
def drainUnits {Img : Type} (st : CollectorState Img) : List (AssembledUnit Img) :=
  (drainState st).1

/-- The two ingestion modes of the collector node. -/
inductive CollectMode where
  | single_images
  | batch_list
deriving DecidableEq

/-- Errors of `collect_cbz_data`; the source messages are
"No images provided in batch mode", "All inputs are required in single_images
mode" and "No complete CBZ groups ready for output" (all `ValueError`s). -/
inductive CollectErr where
  | noImagesBatch
  | allInputsRequired
  | noCompleteGroups
deriving DecidableEq

/-- The METADATA output slot: the normal single_images path returns the list
of per-group records, while the batch path and the forced-empty path return a
single record (Python is dynamically typed here). -/
inductive MetaOut where
  | metaList (l : List MetaRecord)
  | metaStr (m : MetaRecord)
deriving DecidableEq

/-- The result tuple `(IMAGES, FILENAMES, METADATA, CBZ_PATH)`. -/
structure CollectOut (Img : Type) where
  images : List Img
  filenames : List String
  metadata : MetaOut
  cbz_paths : List String

/-- `CBZCollector.collect_cbz_data` (nodes.py lines 352-418).  Absent optional
inputs and empty lists are both falsy in Python and are modelled as `[]`.
The state is threaded explicitly (`self`). -/
def collect_cbz_data {Img : Type} (input_mode : CollectMode) (st : CollectorState Img)
    (images : List Img) (filenames : List String) (metadata : List MetaRecord)
    (cbz_ids : List String) (force_output : Bool) :
    Except CollectErr (CollectOut Img × CollectorState Img) :=
  match input_mode with
  | .batch_list =>
      if images.isEmpty then .error .noImagesBatch
      else
        let batch_cbz_id := cbz_ids.headD "batch_cbz"
        let batch_metadata := metadata.headD (.obj [] none)
        -- cbz_path extraction shared with the single_images emission loop
        .ok (⟨images, filenames, .metaStr batch_metadata,
              [extract_cbz_path batch_cbz_id]⟩, st)
  | .single_images =>
      if images.isEmpty || filenames.isEmpty || metadata.isEmpty || cbz_ids.isEmpty then
        .error .allInputsRequired
      else
        let entries := zip4Entries images filenames metadata cbz_ids
        let st1 := foldSubmits st entries
        let r := drainState st1
        let all_images := (r.1.map (·.images)).flatten
        let all_filenames := (r.1.map (·.filenames)).flatten
        let all_metadata := r.1.map (·.metadata)
        let all_cbz_paths := r.1.map (·.cbz_path)
        if all_images.isEmpty then
          if force_output then .ok (⟨[], [], .metaStr (.obj [] none), []⟩, r.2)
          else .error .noCompleteGroups
        else .ok (⟨all_images, all_filenames, .metaList all_metadata, all_cbz_paths⟩, r.2)

/-! ### First-occurrence deduplication

Used in two roles: the key order of a Python `dict` built by repeated
insertion (first occurrence wins, later insertions keep the position), and the
set of distinct file paths materialised in the writer's temporary directory. -/

/-- `firstOccAux seen l`: the elements of `l` not in `seen`, first occurrences
only, in order of first appearance. -/
def firstOccAux (seen : List String) : List String → List String
  | [] => []
  | x :: xs => if x ∈ seen then firstOccAux seen xs else x :: firstOccAux (x :: seen) xs

/-- First occurrences of `l`, in order. -/
def firstOccIds (l : List String) : List String := firstOccAux [] l

/-! ### Archive Writer (`ExportCBZ`) -/

/-- The value content of the generated `ComicInfo.xml` document: the scalar
elements in `xml_fields` order and the `Page` children (XML serialisation by
`ET.tostring` is the stock library, out of scope). -/
structure ComicInfoXml where
  fields : List (String × String)
  pages : Option (List (List (String × String)))
deriving DecidableEq

/-- `ExportCBZ.create_comic_info_xml` (nodes.py lines 489-528): `None` for
unparseable JSON and for records carrying an `error` or `info` key; otherwise
a document holding every recognised field present in the record, plus the
`Pages` list if the record has one. -/
def create_comic_info_xml (metadata : MetaRecord) : Option ComicInfoXml :=
  match metadata with
  | .malformed => none
  | .obj fields pages =>
      if hasKey "error" fields || hasKey "info" fields then none
      else
        some ⟨comic_fields.filterMap (fun f => (List.lookup f fields).map (fun v => (f, v))),
              pages⟩

/-- The writer's output image format option. -/
inductive ImageFormat where
  | JPEG
  | PNG
deriving DecidableEq

/-- The file extension the writer uses for a format. -/
def extOf : ImageFormat → String
  | .PNG => ".png"
  | .JPEG => ".jpg"

/-- The in-archive name of the `i`-th written page (lines 605-618): reuse the
original name with the extension swapped when structure is preserved and a
name is present, else a sequential `page_NNNN` name. -/
def page_name (image_format : ImageFormat) (preserve_structure : Bool)
    (i : Nat) (original_filename : String) : String :=
  if preserve_structure && original_filename ≠ "" then
    (splitext original_filename).1 ++ extOf image_format
  else
    "page_" ++ pad4 (i + 1) ++ extOf image_format

/-- Output path derivation (lines 570-576): default the directory to the
directory of the (collector-supplied) source path, then join it with
`basename-without-extension ++ suffix ++ ".cbz"`. -/
def generate_output_path (output_directory cbz_path suffix : String) : String :=
  let output_directory := if output_directory = "" then dirname cbz_path else output_directory
  let base_name := (splitext (basename cbz_path)).1
  joinPath output_directory (base_name ++ suffix ++ ".cbz")

/-- What a successful export produces: the returned path and the entry names
of the written archive. -/
structure ExportResult where
  output_path : String
  arc_entries : List String
deriving DecidableEq

/-- `ExportCBZ.export_cbz` (nodes.py lines 530-649).  The host-side
deeply-nested-list unwrapping of `cbz_path`/`metadata` is modelled as already
applied (its effect on plain inputs is the identity).  Pages are written into
a temporary directory and the archive is built from a walk of that directory,
so pages whose derived names collide overwrite one another: the entry list is
the first-occurrence deduplication of the derived names, plus `ComicInfo.xml`
when a sidecar document is generated.  There is no zero-page check; the only
validation is the images/filenames length comparison. -/
def export_cbz {Img : Type} (images : List Img) (filenames : List String)
    (metadata : MetaRecord) (cbz_path : String) (output_directory : String)
    (suffix : String) (image_format : ImageFormat) (preserve_structure : Bool) :
    Except PyError ExportResult :=
  let output_path := generate_output_path output_directory cbz_path suffix
  if images.length ≠ filenames.length then
    .error (.valueError "Number of images must match number of filenames")
  else
    let entryNames :=
      ((images.zip filenames).enum).map
        (fun p => page_name image_format preserve_structure p.1 p.2.2)
    let sidecar : List String :=
      match create_comic_info_xml metadata with
      | some _ => ["ComicInfo.xml"]
      | none => []
    .ok ⟨output_path, firstOccIds (entryNames ++ sidecar)⟩

/-- The collector error messages (all Python `ValueError`s). -/
def collectErrMsg : CollectErr → String
  | .noImagesBatch => "No images provided in batch mode"
  | .allInputsRequired => "All inputs are required in single_images mode"
  | .noCompleteGroups => "No complete CBZ groups ready for output"

/-- The read → batch-collect → write pipeline of spec §8.1: `unpack_cbz` with
no cap, no offset and default sorting, its outputs fed to
`collect_cbz_data` in `batch_list` mode (the host wraps the single metadata
record into a one-element list), and the batch unit written by `export_cbz`
with default options.  The collector's single path output and single returned
metadata record reach the exporter through the host's list plumbing, which
`export_cbz`'s nested-list unwrapping inverts. -/
def cbz_pipeline {Img : Type} (zs : ZipSource Img) (cbz_path : String)
    (output_directory suffix : String) (image_format : ImageFormat)
    (preserve_structure : Bool) : Except PyError ExportResult :=
  match unpack_cbz zs cbz_path 0 0 true with
  | .error e => .error e
  | .ok u =>
      match collect_cbz_data .batch_list (emptyCollector Img) u.images u.filenames
          [u.metadata] u.cbz_ids false with
      | .error e => .error (.valueError (collectErrMsg e))
      | .ok (b, _) =>
          export_cbz b.images b.filenames
            (match b.metadata with | .metaStr m => m | .metaList l => l.headD .malformed)
            (b.cbz_paths.headD "unknown_cbz") output_directory suffix
            image_format preserve_structure

/-- The page entries of a written archive: same qualifying predicate as the
reader. -/
def countPages (arc_entries : List String) : Nat :=
  (arc_entries.filter isQualifying).length

/-! ### Specification-side definitions used by the theorems -/

/-- Association list tabulating `f` on the key list `ks` (the canonical shape
of the collector's tables after a run from the empty state). -/
def mapD {α : Type} (ks : List String) (f : String → α) : List (String × α) :=
  ks.map (fun k => (k, f k))

/-- The archive ids of a submission sequence, in arrival order. -/
def idsOf {Img : Type} (entries : List (SubmitEntry Img)) : List String :=
  entries.map (·.cbz_id)

/-- The pages submitted under `id`, in arrival order. -/
def groupImgs {Img : Type} (id : String) (entries : List (SubmitEntry Img)) : List Img :=
  (entries.filter (fun e => e.cbz_id = id)).map (·.img)

/-- The filenames submitted under `id`, in arrival order. -/
def groupFnames {Img : Type} (id : String) (entries : List (SubmitEntry Img)) : List String :=
  (entries.filter (fun e => e.cbz_id = id)).map (·.fname)

/-- The metadata accompanying the first entry submitted under `id`
(first-seen wins). -/
def metaOfFirst {Img : Type} (id : String) (entries : List (SubmitEntry Img)) : MetaRecord :=
  ((entries.find? (fun e => e.cbz_id = id)).map (·.meta)).getD (.obj [] none)

/-- The collector state after submitting `entries` into a fresh collector:
one group per distinct id in first-arrival order, each holding its own pages
in arrival order and the first-seen metadata. -/
def stateOf {Img : Type} (entries : List (SubmitEntry Img)) : CollectorState Img :=
  ⟨mapD (firstOccIds (idsOf entries)) (fun id => groupImgs id entries),
   mapD (firstOccIds (idsOf entries)) (fun id => groupFnames id entries),
   mapD (firstOccIds (idsOf entries)) (fun id => metaOfFirst id entries)⟩

/-- The unit a drain emits for archive id `id` after `entries` were submitted
into a fresh collector. -/
def unitOf {Img : Type} (id : String) (entries : List (SubmitEntry Img)) : AssembledUnit Img :=
  ⟨groupImgs id entries, groupFnames id entries, metaOfFirst id entries, extract_cbz_path id⟩

/-- The three collector tables are keyed in lockstep (every reachable state
satisfies this: groups are created and deleted in all three tables at once). -/
def SyncedState {Img : Type} (st : CollectorState Img) : Prop :=
  (∀ kv ∈ st.filename_groups, kv.1 ∈ st.image_groups.map Prod.fst) ∧
  (∀ kv ∈ st.metadata_cache, kv.1 ∈ st.image_groups.map Prod.fst)

/-- A metadata record that is an error/placeholder: unparseable JSON, or a
record carrying an `error` or `info` key (the degraded records the reader
produces for an unparseable or absent sidecar). -/
def isPlaceholder (md : MetaRecord) : Bool :=
  match md with
  | .malformed => true
  | .obj fields _ => hasKey "error" fields || hasKey "info" fields

/-- Modelled from the spec's words, for comparison with the source selection
stage: lexicographically sort all qualifying entry names, then drop the
entries before the 0-based start offset, then truncate to the cap. -/
def selectSpec (namelist : List String) (start_index image_load_cap : Nat) : List String :=
  ((sortStr (namelist.filter isQualifying)).drop start_index).take image_load_cap

/-! ## Supporting lemmas -/

theorem string_mk_data (s : String) : (⟨s.data⟩ : String) = s := rfl

theorem basename_no_slash (p : String) : ∀ c ∈ (basename p).data, c ≠ '/' := by
  intro c hc
  simp only [basename, List.mem_reverse] at hc
  have := List.mem_takeWhile_imp hc
  simpa [notSlash] using this

theorem dirname_of_no_slash (p : String) (h : ∀ c ∈ p.data, c ≠ '/') : dirname p = "" := by
  have hd : p.data.reverse.dropWhile notSlash = [] := by
    rw [List.dropWhile_eq_nil_iff]
    intro x hx
    simpa [notSlash] using h x (List.mem_reverse.mp hx)
  simp [dirname, hd]

theorem splitext_shape (p : String) :
    splitext p = (p, "") ∨
    p.data = (splitext p).1.data ++ '.' :: (splitext p).2.data.tail := by
  have hsplit := @List.takeWhile_append_dropWhile Char
    (fun c => notDot c && notSlash c) p.data.reverse
  rcases hrest : p.data.reverse.dropWhile (fun c => notDot c && notSlash c) with _ | ⟨c, t⟩
  · left
    unfold splitext
    dsimp only
    rw [hrest]
    simp
  · unfold splitext
    dsimp only
    rw [hrest]
    simp only [List.head?_cons, List.tail_cons]
    split
    · rename_i hcond
      right
      have hcdot : c = '.' := by
        have := hcond.1
        simpa using this
      subst hcdot
      dsimp only
      conv_lhs => rw [← List.reverse_reverse p.data, ← hsplit, hrest]
      simp
    · left
      rfl

theorem splitext_fst_isPrefix (p : String) : (splitext p).1.data <+: p.data := by
  rcases splitext_shape p with h | h
  · rw [h]
  · exact ⟨'.' :: (splitext p).2.data.tail, h.symm⟩

theorem mem_firstOccAux (seen l : List String) (x : String) :
    x ∈ firstOccAux seen l ↔ x ∈ l ∧ x ∉ seen := by
  induction l generalizing seen with
  | nil => simp [firstOccAux]
  | cons a as ih =>
      by_cases ha : a ∈ seen
      · rw [firstOccAux, if_pos ha, ih]
        constructor
        · rintro ⟨h1, h2⟩
          exact ⟨List.mem_cons_of_mem a h1, h2⟩
        · rintro ⟨h1, h2⟩
          rcases List.mem_cons.mp h1 with rfl | h1
          · exact absurd ha h2
          · exact ⟨h1, h2⟩
      · rw [firstOccAux, if_neg ha]
        constructor
        · intro h
          rcases List.mem_cons.mp h with rfl | h
          · exact ⟨List.mem_cons_self x as, ha⟩
          · have := (ih (a :: seen)).mp h
            refine ⟨List.mem_cons_of_mem a this.1, fun hx => this.2 (List.mem_cons_of_mem a hx)⟩
        · rintro ⟨h1, h2⟩
          rcases List.mem_cons.mp h1 with rfl | h1
          · exact List.mem_cons_self x _
          · by_cases hxa : x = a
            · subst hxa
              exact List.mem_cons_self x _
            · exact List.mem_cons_of_mem a ((ih (a :: seen)).mpr
                ⟨h1, by simp [List.mem_cons, hxa, h2]⟩)

theorem mem_firstOccIds (l : List String) (x : String) : x ∈ firstOccIds l ↔ x ∈ l := by
  rw [firstOccIds, mem_firstOccAux]
  simp

theorem nodup_firstOccAux (seen l : List String) : (firstOccAux seen l).Nodup := by
  induction l generalizing seen with
  | nil => simp [firstOccAux]
  | cons a as ih =>
      by_cases ha : a ∈ seen
      · rw [firstOccAux, if_pos ha]
        exact ih seen
      · rw [firstOccAux, if_neg ha]
        refine List.Nodup.cons ?_ (ih (a :: seen))
        intro hmem
        have := (mem_firstOccAux (a :: seen) as a).mp hmem
        exact this.2 (List.mem_cons_self a seen)

theorem nodup_firstOccIds (l : List String) : (firstOccIds l).Nodup := nodup_firstOccAux [] l

theorem firstOccAux_of_nodup (seen l : List String) (hn : l.Nodup)
    (hd : ∀ x ∈ l, x ∉ seen) : firstOccAux seen l = l := by
  induction l generalizing seen with
  | nil => rfl
  | cons a as ih =>
      rw [firstOccAux, if_neg (hd a (List.mem_cons_self a as))]
      congr 1
      refine ih (a :: seen) (List.Nodup.of_cons hn) ?_
      intro x hx
      rw [List.mem_cons]
      push_neg
      refine ⟨?_, hd x (List.mem_cons_of_mem a hx)⟩
      rintro rfl
      exact (List.nodup_cons.mp hn).1 hx

theorem firstOccIds_of_nodup (l : List String) (hn : l.Nodup) : firstOccIds l = l :=
  firstOccAux_of_nodup [] l hn (by simp)

theorem firstOccAux_append_singleton (seen l : List String) (a : String) :
    firstOccAux seen (l ++ [a]) =
      firstOccAux seen l ++ (if a ∈ seen ∨ a ∈ l then [] else [a]) := by
  induction l generalizing seen with
  | nil =>
      by_cases ha : a ∈ seen
      · simp [firstOccAux, ha]
      · simp [firstOccAux, ha]
  | cons x xs ih =>
      by_cases hx : x ∈ seen
      · rw [List.cons_append, firstOccAux, if_pos hx, firstOccAux, if_pos hx, ih]
        by_cases hax : a ∈ seen ∨ a ∈ xs
        · rw [if_pos hax, if_pos (by
            rcases hax with h | h
            · exact Or.inl h
            · exact Or.inr (List.mem_cons_of_mem x h))]
        · rw [if_neg hax, if_neg (by
            rintro (h | h)
            · exact hax (Or.inl h)
            · rcases List.mem_cons.mp h with rfl | h
              · exact hax (Or.inl hx)
              · exact hax (Or.inr h))]
      · rw [List.cons_append, firstOccAux, if_neg hx, firstOccAux, if_neg hx, ih,
          List.cons_append]
        by_cases hax : a ∈ x :: seen ∨ a ∈ xs
        · rw [if_pos hax, if_pos (by
            rcases hax with h | h
            · rcases List.mem_cons.mp h with rfl | h
              · exact Or.inr (List.mem_cons_self a xs)
              · exact Or.inl h
            · exact Or.inr (List.mem_cons_of_mem x h))]
        · rw [if_neg hax, if_neg (by
            rintro (h | h)
            · exact hax (Or.inl (List.mem_cons_of_mem x h))
            · rcases List.mem_cons.mp h with rfl | h
              · exact hax (Or.inl (List.mem_cons_self a seen))
              · exact hax (Or.inr h))]

theorem firstOccIds_append_singleton (l : List String) (a : String) :
    firstOccIds (l ++ [a]) = firstOccIds l ++ (if a ∈ l then [] else [a]) := by
  rw [firstOccIds, firstOccAux_append_singleton]
  simp [firstOccIds]

theorem insertEnd_perm (a : String) (l : List String) :
    List.Perm (insertEnd a l) (a :: l) := by
  induction l with
  | nil => rfl
  | cons b bs ih =>
      rw [insertEnd]
      split
      · rfl
      · exact (List.Perm.cons b ih).trans (List.Perm.swap a b bs)

theorem sortStr_perm (l : List String) : List.Perm (sortStr l) l := by
  suffices h : ∀ (l acc : List String), List.Perm (l.foldl (fun acc a => insertEnd a acc) acc)
      (acc ++ l) by
    simpa using h l []
  intro l
  induction l with
  | nil => simp
  | cons x xs ih =>
      intro acc
      rw [List.foldl_cons]
      refine (ih (insertEnd x acc)).trans ?_
      refine (List.Perm.append_right xs (insertEnd_perm x acc)).trans ?_
      exact List.perm_middle.symm

theorem sortStr_length (l : List String) : (sortStr l).length = l.length :=
  (sortStr_perm l).length_eq

theorem mem_sortStr (l : List String) (x : String) : x ∈ sortStr l ↔ x ∈ l :=
  (sortStr_perm l).mem_iff

theorem isQualifying_ne_empty (f : String) (h : isQualifying f = true) : f ≠ "" := by
  rintro rfl
  exact absurd h (by decide)

/-- If a list is a prefix of a dot-free list extended by a dot-headed tail,
that dot-free list already carries the prefix. -/
theorem macosx_transfer (f b rest : List Char) (hb : b <+: f)
    (hf : ¬ ("__MACOSX/".data <+: f)) :
    ¬ ("__MACOSX/".data <+: (b ++ '.' :: rest)) := by
  intro h
  have hb' : b <+: b ++ '.' :: rest := List.prefix_append b _
  rcases List.prefix_or_prefix_of_prefix h hb' with hmb | hbm
  · exact hf (hmb.trans hb)
  · obtain ⟨u, hu⟩ := hbm
    rcases hu' : u with _ | ⟨c, u'⟩
    · subst hu'
      rw [List.append_nil] at hu
      exact hf (hu ▸ hb)
    · subst hu'
      rw [← hu] at h
      have htail : (c :: u') <+: ('.' :: rest) := ((List.prefix_append_right_inj b).mp h)
      have hc : c = '.' := (List.cons_prefix_cons.mp htail).1
      subst hc
      have : '.' ∈ "__MACOSX/".data := by
        rw [← hu]
        exact List.mem_append_right b (List.mem_cons_self '.' u')
      exact absurd this (by decide)

/-- The writer's derived page name for a qualifying source name is itself a
qualifying page entry name. -/
theorem isQualifying_derived (f : String) (h : isQualifying f = true) (fmt : ImageFormat) :
    isQualifying ((splitext f).1 ++ extOf fmt) = true := by
  have hmac : ¬ ("__MACOSX/".data.isPrefixOf f.data = true) := by
    intro hma
    rw [isQualifying, Bool.and_eq_true] at h
    have := h.2
    rw [strStartsWith] at this
    rw [hma] at this
    exact absurd this (by decide)
  rw [isQualifying, Bool.and_eq_true]
  constructor
  · rw [List.any_eq_true]
    refine ⟨extOf fmt, by cases fmt <;> decide, ?_⟩
    rw [strEndsWith, List.isSuffixOf_iff_suffix]
    have hdata : (str_lower ((splitext f).1 ++ extOf fmt)).data
        = (str_lower (splitext f).1).data ++ (extOf fmt).data := by
      simp only [str_lower, String.data_append, List.map_append]
      congr 1
      cases fmt <;> rfl
    rw [hdata]
    exact List.suffix_append _ _
  · rw [Bool.not_eq_true']
    rw [Bool.eq_false_iff]
    intro hpre
    rw [strStartsWith, String.data_append] at hpre
    have hpre' := List.isPrefixOf_iff_prefix.mp hpre
    have hext : (extOf fmt).data = '.' :: (extOf fmt).data.tail := by
      cases fmt <;> rfl
    rw [hext] at hpre'
    refine macosx_transfer f.data (splitext f).1.data ((extOf fmt).data.tail)
      (splitext_fst_isPrefix f) ?_ hpre'
    intro hm
    exact hmac (List.isPrefixOf_iff_prefix.mpr hm)

/-! ### Dictionary lemmas -/

theorem dictGet?_cons {α : Type} (kv : String × α) (d : List (String × α)) (k : String) :
    dictGet? k (kv :: d) = if kv.1 = k then some kv.2 else dictGet? k d := by
  simp only [dictGet?, List.find?_cons]
  by_cases h : kv.1 = k
  · simp [h]
  · simp [h]

theorem dictMem_cons {α : Type} (kv : String × α) (d : List (String × α)) (k : String) :
    dictMem k (kv :: d) = (decide (kv.1 = k) || dictMem k d) := by
  simp [dictMem, List.any_cons]

theorem dictSet_cons {α : Type} (kv : String × α) (d : List (String × α)) (k : String) (v : α) :
    dictSet k v (kv :: d) = if kv.1 = k then (k, v) :: d else kv :: dictSet k v d := rfl

theorem dictDel_cons {α : Type} (kv : String × α) (d : List (String × α)) (k : String) :
    dictDel k (kv :: d) = if kv.1 = k then dictDel k d else kv :: dictDel k d := by
  simp only [dictDel, List.filter_cons]
  by_cases h : kv.1 = k
  · simp [h]
  · simp [h]

theorem dictMem_mapD {α : Type} (ks : List String) (f : String → α) (k : String) :
    dictMem k (mapD ks f) = decide (k ∈ ks) := by
  induction ks with
  | nil => simp [dictMem, mapD]
  | cons a as ih =>
      rw [mapD, List.map_cons, dictMem_cons, ← mapD, ih]
      by_cases h : a = k
      · subst h
        simp
      · simp [h, Ne.symm h]

theorem dictGet?_mapD_of_mem {α : Type} (ks : List String) (f : String → α) (k : String)
    (h : k ∈ ks) : dictGet? k (mapD ks f) = some (f k) := by
  induction ks with
  | nil => simp at h
  | cons a as ih =>
      rw [mapD, List.map_cons, dictGet?_cons, ← mapD]
      by_cases hak : a = k
      · subst hak
        simp
      · rw [if_neg hak]
        rcases List.mem_cons.mp h with rfl | h
        · exact absurd rfl hak
        · exact ih h

theorem dictGet?_mapD_of_not_mem {α : Type} (ks : List String) (f : String → α) (k : String)
    (h : k ∉ ks) : dictGet? k (mapD ks f) = none := by
  induction ks with
  | nil => rfl
  | cons a as ih =>
      simp only [List.mem_cons, not_or] at h
      rw [mapD, List.map_cons, dictGet?_cons, ← mapD, if_neg (fun hh => h.1 hh.symm)]
      exact ih h.2

theorem dictSet_mapD_of_not_mem {α : Type} (ks : List String) (f : String → α)
    (k : String) (v : α) (h : k ∉ ks) :
    dictSet k v (mapD ks f) = mapD ks f ++ [(k, v)] := by
  induction ks with
  | nil => rfl
  | cons a as ih =>
      simp only [List.mem_cons, not_or] at h
      rw [mapD, List.map_cons, dictSet_cons, ← mapD, if_neg (fun hh => h.1 hh.symm),
        List.cons_append]
      congr 1
      exact ih h.2

theorem dictSet_mapD_of_mem {α : Type} (ks : List String) (f : String → α)
    (k : String) (v : α) (hnd : ks.Nodup) (h : k ∈ ks) :
    dictSet k v (mapD ks f) = mapD ks (fun i => if i = k then v else f i) := by
  induction ks with
  | nil => simp at h
  | cons a as ih =>
      rcases List.mem_cons.mp h with rfl | h
      · rw [mapD, List.map_cons, dictSet_cons, if_pos rfl, mapD, List.map_cons, if_pos rfl]
        congr 1
        apply List.map_congr_left
        intro x hx
        rw [if_neg]
        rintro rfl
        exact (List.nodup_cons.mp hnd).1 hx
      · have hak : a ≠ k := by
          rintro rfl
          exact (List.nodup_cons.mp hnd).1 h
        rw [mapD, List.map_cons, dictSet_cons, if_neg hak, ← mapD,
          ih (List.Nodup.of_cons hnd) h]
        simp [mapD, hak]

theorem dictDel_mapD {α : Type} (ks : List String) (f : String → α) (k : String) :
    dictDel k (mapD ks f) = mapD (ks.filter (fun i => i ≠ k)) f := by
  induction ks with
  | nil => rfl
  | cons a as ih =>
      rw [mapD, List.map_cons, dictDel_cons, ← mapD, List.filter_cons]
      by_cases h : a = k
      · subst h
        simp [ih]
      · rw [if_neg h, if_pos (by simpa using h)]
        rw [ih]
        simp [mapD]

/-! ### Collector grouping lemmas -/

theorem keys_mapD {α : Type} (ks : List String) (f : String → α) :
    (mapD ks f).map Prod.fst = ks := by
  induction ks with
  | nil => rfl
  | cons a as ih =>
      simp only [mapD, List.map_cons] at ih ⊢
      rw [ih]

theorem mapD_append {α : Type} (ks₁ ks₂ : List String) (f : String → α) :
    mapD (ks₁ ++ ks₂) f = mapD ks₁ f ++ mapD ks₂ f := by
  simp [mapD]

theorem mapD_congr {α : Type} (ks : List String) (f g : String → α)
    (h : ∀ i ∈ ks, f i = g i) : mapD ks f = mapD ks g := by
  apply List.map_congr_left
  intro x hx
  rw [h x hx]

theorem dictGet?_append {α : Type} (d₁ d₂ : List (String × α)) (k : String) :
    dictGet? k (d₁ ++ d₂) = (dictGet? k d₁).or (dictGet? k d₂) := by
  simp only [dictGet?, List.find?_append]
  cases d₁.find? (fun kv => kv.1 = k) <;> simp

theorem dictSet_append_left {α : Type} (d₁ d₂ : List (String × α)) (k : String) (v : α)
    (h : ∀ kv ∈ d₁, kv.1 ≠ k) : dictSet k v (d₁ ++ d₂) = d₁ ++ dictSet k v d₂ := by
  induction d₁ with
  | nil => simp
  | cons kv rest ih =>
      rw [List.cons_append, dictSet_cons, if_neg (h kv (List.mem_cons_self kv rest)),
        List.cons_append]
      congr 1
      exact ih (fun x hx => h x (List.mem_cons_of_mem kv hx))

theorem groupImgs_append_singleton {Img : Type} (id : String)
    (es : List (SubmitEntry Img)) (e : SubmitEntry Img) :
    groupImgs id (es ++ [e]) =
      groupImgs id es ++ (if e.cbz_id = id then [e.img] else []) := by
  rw [groupImgs, List.filter_append, List.map_append, groupImgs]
  congr 1
  by_cases h : e.cbz_id = id
  · simp [List.filter_cons, h]
  · simp [List.filter_cons, h]

theorem groupFnames_append_singleton {Img : Type} (id : String)
    (es : List (SubmitEntry Img)) (e : SubmitEntry Img) :
    groupFnames id (es ++ [e]) =
      groupFnames id es ++ (if e.cbz_id = id then [e.fname] else []) := by
  rw [groupFnames, List.filter_append, List.map_append, groupFnames]
  congr 1
  by_cases h : e.cbz_id = id
  · simp [List.filter_cons, h]
  · simp [List.filter_cons, h]

theorem find?_ids_none {Img : Type} (id : String) (es : List (SubmitEntry Img))
    (h : id ∉ idsOf es) : es.find? (fun e => e.cbz_id = id) = none := by
  rw [List.find?_eq_none]
  intro e he
  simp only [decide_eq_true_eq]
  rintro rfl
  exact h (List.mem_map_of_mem (·.cbz_id) he)

theorem find?_ids_isSome {Img : Type} (id : String) (es : List (SubmitEntry Img))
    (h : id ∈ idsOf es) : (es.find? (fun e => e.cbz_id = id)).isSome := by
  rw [List.find?_isSome]
  obtain ⟨e, he, rfl⟩ := List.mem_map.mp h
  exact ⟨e, he, by simp⟩

theorem groupImgs_of_not_mem {Img : Type} (id : String) (es : List (SubmitEntry Img))
    (h : id ∉ idsOf es) : groupImgs id es = [] := by
  rw [groupImgs, List.map_eq_nil_iff, List.filter_eq_nil_iff]
  intro e he
  simp only [decide_eq_true_eq]
  rintro rfl
  exact h (List.mem_map_of_mem (·.cbz_id) he)

theorem groupFnames_of_not_mem {Img : Type} (id : String) (es : List (SubmitEntry Img))
    (h : id ∉ idsOf es) : groupFnames id es = [] := by
  rw [groupFnames, List.map_eq_nil_iff, List.filter_eq_nil_iff]
  intro e he
  simp only [decide_eq_true_eq]
  rintro rfl
  exact h (List.mem_map_of_mem (·.cbz_id) he)

theorem metaOfFirst_append_of_mem {Img : Type} (id : String)
    (es es₂ : List (SubmitEntry Img)) (h : id ∈ idsOf es) :
    metaOfFirst id (es ++ es₂) = metaOfFirst id es := by
  rw [metaOfFirst, metaOfFirst, List.find?_append]
  obtain ⟨e, hsome⟩ := Option.isSome_iff_exists.mp (find?_ids_isSome id es h)
  rw [hsome]
  rfl

theorem metaOfFirst_append_new {Img : Type} (id : String)
    (es : List (SubmitEntry Img)) (e : SubmitEntry Img)
    (h : id ∉ idsOf es) (he : e.cbz_id = id) :
    metaOfFirst id (es ++ [e]) = e.meta := by
  rw [metaOfFirst, List.find?_append, find?_ids_none id es h]
  simp [List.find?_cons, he]

theorem mem_mapD_keys {α : Type} (ks : List String) (f : String → α)
    (kv : String × α) (h : kv ∈ mapD ks f) : kv.1 ∈ ks := by
  obtain ⟨k, hk, rfl⟩ := List.mem_map.mp h
  exact hk

theorem submitOne_stateOf {Img : Type} (es : List (SubmitEntry Img)) (e : SubmitEntry Img) :
    submitOne (stateOf es) e = stateOf (es ++ [e]) := by
  have hids : idsOf (es ++ [e]) = idsOf es ++ [e.cbz_id] := by simp [idsOf]
  have hnd := nodup_firstOccIds (idsOf es)
  by_cases hmem : e.cbz_id ∈ idsOf es
  · have hks : firstOccIds (idsOf (es ++ [e])) = firstOccIds (idsOf es) := by
      rw [hids, firstOccIds_append_singleton, if_pos hmem, List.append_nil]
    have hmemF : e.cbz_id ∈ firstOccIds (idsOf es) := (mem_firstOccIds _ _).mpr hmem
    have hc : dictMem e.cbz_id (mapD (firstOccIds (idsOf es))
        (fun id => groupImgs id es)) = true := by
      rw [dictMem_mapD]
      simpa using hmemF
    rw [submitOne]
    dsimp only [stateOf]
    rw [hc]
    simp only [if_true]
    rw [hks]
    have himg : dictAppend e.cbz_id e.img
        (mapD (firstOccIds (idsOf es)) (fun id => groupImgs id es)) =
        mapD (firstOccIds (idsOf es)) (fun id => groupImgs id (es ++ [e])) := by
      rw [dictAppend, dictGet?_mapD_of_mem _ _ _ hmemF, Option.getD_some,
        dictSet_mapD_of_mem _ _ _ _ hnd hmemF]
      apply mapD_congr
      intro i hi
      rw [groupImgs_append_singleton]
      by_cases hik : i = e.cbz_id
      · subst hik
        rw [if_pos rfl, if_pos rfl]
      · rw [if_neg hik, if_neg (fun hh => hik hh.symm), List.append_nil]
    have hfn : dictAppend e.cbz_id e.fname
        (mapD (firstOccIds (idsOf es)) (fun id => groupFnames id es)) =
        mapD (firstOccIds (idsOf es)) (fun id => groupFnames id (es ++ [e])) := by
      rw [dictAppend, dictGet?_mapD_of_mem _ _ _ hmemF, Option.getD_some,
        dictSet_mapD_of_mem _ _ _ _ hnd hmemF]
      apply mapD_congr
      intro i hi
      rw [groupFnames_append_singleton]
      by_cases hik : i = e.cbz_id
      · subst hik
        rw [if_pos rfl, if_pos rfl]
      · rw [if_neg hik, if_neg (fun hh => hik hh.symm), List.append_nil]
    have hmd : mapD (firstOccIds (idsOf es)) (fun id => metaOfFirst id es) =
        mapD (firstOccIds (idsOf es)) (fun id => metaOfFirst id (es ++ [e])) := by
      apply mapD_congr
      intro i hi
      rw [metaOfFirst_append_of_mem _ _ _ ((mem_firstOccIds _ _).mp hi)]
    rw [himg, hfn, hmd]
  · have hks : firstOccIds (idsOf (es ++ [e])) = firstOccIds (idsOf es) ++ [e.cbz_id] := by
      rw [hids, firstOccIds_append_singleton, if_neg hmem]
    have hmemF : e.cbz_id ∉ firstOccIds (idsOf es) := fun hh =>
      hmem ((mem_firstOccIds _ _).mp hh)
    have hc : dictMem e.cbz_id (mapD (firstOccIds (idsOf es))
        (fun id => groupImgs id es)) = false := by
      rw [dictMem_mapD]
      simpa using hmemF
    rw [submitOne]
    dsimp only [stateOf]
    rw [hc]
    simp only [Bool.false_eq_true, if_false]
    rw [hks]
    have hset : ∀ {α : Type} (f : String → α) (v : α),
        dictSet e.cbz_id v (mapD (firstOccIds (idsOf es)) f) =
          mapD (firstOccIds (idsOf es)) f ++ [(e.cbz_id, v)] := fun f v =>
      dictSet_mapD_of_not_mem _ _ _ _ hmemF
    have himg : dictAppend e.cbz_id e.img
        (dictSet e.cbz_id [] (mapD (firstOccIds (idsOf es)) (fun id => groupImgs id es))) =
        mapD (firstOccIds (idsOf es) ++ [e.cbz_id]) (fun id => groupImgs id (es ++ [e])) := by
      rw [hset, dictAppend, dictGet?_append,
        dictGet?_mapD_of_not_mem _ _ _ hmemF, Option.none_or, dictGet?_cons]
      rw [if_pos rfl]
      simp only [Option.getD_some, List.nil_append]
      rw [dictSet_append_left _ _ _ _
        (fun kv hkv hk => hmemF (by rw [← hk]; exact mem_mapD_keys _ _ kv hkv)),
        dictSet_cons, if_pos rfl, mapD_append]
      congr 1
      · apply mapD_congr
        intro i hi
        rw [groupImgs_append_singleton, if_neg (fun hh =>
          hmemF (by rw [hh]; exact hi)), List.append_nil]
      · rw [mapD, List.map_cons, List.map_nil]
        rw [groupImgs_append_singleton, if_pos rfl,
          groupImgs_of_not_mem _ _ hmem, List.nil_append]
    have hfn : dictAppend e.cbz_id e.fname
        (dictSet e.cbz_id [] (mapD (firstOccIds (idsOf es)) (fun id => groupFnames id es))) =
        mapD (firstOccIds (idsOf es) ++ [e.cbz_id]) (fun id => groupFnames id (es ++ [e])) := by
      rw [hset, dictAppend, dictGet?_append,
        dictGet?_mapD_of_not_mem _ _ _ hmemF, Option.none_or, dictGet?_cons]
      rw [if_pos rfl]
      simp only [Option.getD_some, List.nil_append]
      rw [dictSet_append_left _ _ _ _
        (fun kv hkv hk => hmemF (by rw [← hk]; exact mem_mapD_keys _ _ kv hkv)),
        dictSet_cons, if_pos rfl, mapD_append]
      congr 1
      · apply mapD_congr
        intro i hi
        rw [groupFnames_append_singleton, if_neg (fun hh =>
          hmemF (by rw [hh]; exact hi)), List.append_nil]
      · rw [mapD, List.map_cons, List.map_nil]
        rw [groupFnames_append_singleton, if_pos rfl,
          groupFnames_of_not_mem _ _ hmem, List.nil_append]
    have hmd : dictSet e.cbz_id e.meta
        (mapD (firstOccIds (idsOf es)) (fun id => metaOfFirst id es)) =
        mapD (firstOccIds (idsOf es) ++ [e.cbz_id]) (fun id => metaOfFirst id (es ++ [e])) := by
      rw [hset, mapD_append]
      congr 1
      · apply mapD_congr
        intro i hi
        rw [metaOfFirst_append_of_mem _ _ _ ((mem_firstOccIds _ _).mp hi)]
      · rw [mapD, List.map_cons, List.map_nil]
        rw [metaOfFirst_append_new _ _ _ hmem rfl]
    rw [himg, hfn, hmd]

theorem foldSubmits_stateOf {Img : Type} (entries : List (SubmitEntry Img)) :
    foldSubmits (emptyCollector Img) entries = stateOf entries := by
  induction entries using List.reverseRecOn with
  | nil => rfl
  | append_singleton es e ih =>
      rw [foldSubmits, List.foldl_append, List.foldl_cons, List.foldl_nil, ← foldSubmits, ih,
        submitOne_stateOf]

theorem drainLoop_mapD {Img : Type} (ks : List String) (hnd : ks.Nodup)
    (g : String → List Img) (f : String → List String) (m : String → MetaRecord) :
    drainLoop ks ⟨mapD ks g, mapD ks f, mapD ks m⟩ =
      (ks.map (fun id => ⟨g id, f id, m id, extract_cbz_path id⟩), emptyCollector Img) := by
  induction ks with
  | nil => rfl
  | cons k ks' ih =>
      have hknot : k ∉ ks' := (List.nodup_cons.mp hnd).1
      have hdel : ∀ {α : Type} (f' : String → α),
          dictDel k (mapD (k :: ks') f') = mapD ks' f' := by
        intro α f'
        rw [dictDel_mapD]
        rw [List.filter_cons]
        rw [if_neg (by simp)]
        congr 1
        apply List.filter_eq_self.mpr
        intro a ha
        simp only [decide_eq_true_eq]
        rintro rfl
        exact hknot ha
      rw [drainLoop]
      dsimp only
      rw [dictGet?_mapD_of_mem _ _ _ (List.mem_cons_self k ks'),
        dictGet?_mapD_of_mem _ _ _ (List.mem_cons_self k ks'),
        dictGet?_mapD_of_mem _ _ _ (List.mem_cons_self k ks')]
      simp only [Option.getD_some]
      rw [hdel, hdel, hdel]
      rw [ih (List.Nodup.of_cons hnd)]
      rfl

theorem drainState_stateOf {Img : Type} (entries : List (SubmitEntry Img)) :
    drainState (stateOf entries) =
      ((firstOccIds (idsOf entries)).map (fun id => unitOf id entries),
        emptyCollector Img) := by
  rw [drainState]
  have hkeys : (stateOf entries).image_groups.map Prod.fst = firstOccIds (idsOf entries) :=
    keys_mapD _ _
  rw [hkeys]
  show drainLoop (firstOccIds (idsOf entries))
      ⟨mapD (firstOccIds (idsOf entries)) (fun id => groupImgs id entries),
       mapD (firstOccIds (idsOf entries)) (fun id => groupFnames id entries),
       mapD (firstOccIds (idsOf entries)) (fun id => metaOfFirst id entries)⟩ = _
  rw [drainLoop_mapD _ (nodup_firstOccIds _)]
  rfl

theorem zip4Entries_maps {Img : Type} (entries : List (SubmitEntry Img)) :
    zip4Entries (entries.map (·.img)) (entries.map (·.fname))
      (entries.map (·.meta)) (entries.map (·.cbz_id)) = entries := by
  induction entries with
  | nil => rfl
  | cons e es ih =>
      simp only [List.map_cons, zip4Entries, ih]

theorem firstOccIds_cons (a : String) (l : List String) :
    firstOccIds (a :: l) = a :: firstOccAux [a] l := by
  rw [firstOccIds, firstOccAux, if_neg (List.not_mem_nil a)]

/-- A successful single_images call on a fresh collector: every submitted
entry is grouped by archive id and everything is drained in the same call. -/
theorem collect_single_of_entries {Img : Type} (entries : List (SubmitEntry Img))
    (hne : entries ≠ []) (force : Bool) :
    collect_cbz_data .single_images (emptyCollector Img) (entries.map (·.img))
      (entries.map (·.fname)) (entries.map (·.meta)) (entries.map (·.cbz_id)) force =
    .ok (⟨(((firstOccIds (idsOf entries)).map (fun id => unitOf id entries)).map
            (·.images)).flatten,
          (((firstOccIds (idsOf entries)).map (fun id => unitOf id entries)).map
            (·.filenames)).flatten,
          .metaList (((firstOccIds (idsOf entries)).map (fun id => unitOf id entries)).map
            (·.metadata)),
          ((firstOccIds (idsOf entries)).map (fun id => unitOf id entries)).map
            (·.cbz_path)⟩,
        emptyCollector Img) := by
  obtain ⟨e0, es', rfl⟩ := List.exists_cons_of_ne_nil hne
  simp only [collect_cbz_data]
  rw [zip4Entries_maps]
  rw [if_neg (by simp)]
  rw [foldSubmits_stateOf, drainState_stateOf]
  dsimp only
  have hflat : ((((firstOccIds (idsOf (e0 :: es'))).map
      (fun id => unitOf id (e0 :: es'))).map (·.images)).flatten).isEmpty = false := by
    rw [List.isEmpty_eq_false_iff_exists_mem]
    refine ⟨e0.img, ?_⟩
    rw [List.mem_flatten]
    refine ⟨(unitOf e0.cbz_id (e0 :: es')).images, ?_, ?_⟩
    · rw [List.mem_map]
      refine ⟨unitOf e0.cbz_id (e0 :: es'), ?_, rfl⟩
      rw [List.mem_map]
      refine ⟨e0.cbz_id, ?_, rfl⟩
      rw [mem_firstOccIds]
      exact List.mem_map_of_mem (·.cbz_id) (List.mem_cons_self e0 es')
    · rw [unitOf]
      dsimp only
      rw [groupImgs, List.mem_map]
      refine ⟨e0, ?_, rfl⟩
      rw [List.mem_filter]
      exact ⟨List.mem_cons_self e0 es', by simp⟩
  rw [if_neg (by rw [hflat]; simp)]

/-! ## Claim theorems -/

/-- C1: for any interleaved submission sequence under two distinct archive ids
A and B (the per-entry loop of a `collect_cbz_data` call on a fresh
collector), the drain phase with `force=false` emits exactly two assembled
units, one per id (`firstOccIds … ~ [A, B]`), where each unit carries exactly
the pages and filenames submitted under its own id in arrival order
(`groupImgs`/`groupFnames` filter by id, preserving order, no deduplication)
together with the first-seen metadata; and the full call succeeds, returning
the units flattened in first-arrival order. -/
theorem C1_group_isolation {Img : Type} (entries : List (SubmitEntry Img)) (A B : String)
    (hAB : A ≠ B) (hA : A ∈ idsOf entries) (hB : B ∈ idsOf entries)
    (hall : ∀ e ∈ entries, e.cbz_id = A ∨ e.cbz_id = B) :
    List.Perm (firstOccIds (idsOf entries)) [A, B] ∧
    drainUnits (foldSubmits (emptyCollector Img) entries) =
      (firstOccIds (idsOf entries)).map (fun id => unitOf id entries) ∧
    collect_cbz_data .single_images (emptyCollector Img) (entries.map (·.img))
      (entries.map (·.fname)) (entries.map (·.meta)) (entries.map (·.cbz_id)) false =
    .ok (⟨(((firstOccIds (idsOf entries)).map (fun id => unitOf id entries)).map
            (·.images)).flatten,
          (((firstOccIds (idsOf entries)).map (fun id => unitOf id entries)).map
            (·.filenames)).flatten,
          .metaList (((firstOccIds (idsOf entries)).map (fun id => unitOf id entries)).map
            (·.metadata)),
          ((firstOccIds (idsOf entries)).map (fun id => unitOf id entries)).map
            (·.cbz_path)⟩,
        emptyCollector Img) := by
  have hne : entries ≠ [] := by
    rintro rfl
    simp [idsOf] at hA
  refine ⟨?_, ?_, ?_⟩
  · rw [List.perm_ext_iff_of_nodup (nodup_firstOccIds _) (by simp [hAB])]
    intro a
    rw [mem_firstOccIds]
    constructor
    · intro ha
      obtain ⟨e, he, rfl⟩ := List.mem_map.mp ha
      rcases hall e he with h | h <;> simp [h]
    · intro ha
      rcases List.mem_cons.mp ha with rfl | ha
      · exact hA
      · rcases List.mem_cons.mp ha with rfl | ha
        · exact hB
        · simp at ha
  · rw [foldSubmits_stateOf, drainUnits, drainState_stateOf]
  · exact collect_single_of_entries entries hne false

/-- C1 witness: a concrete interleaved A/B/A submission, with the grouped,
order-preserving output evaluated concretely. -/
theorem C1_group_isolation_witness :
    List.Perm (firstOccIds (idsOf
      ([⟨1, "a1.jpg", .obj [("Title", "t1")] none, "A"⟩,
        ⟨2, "b1.jpg", .malformed, "B"⟩,
        ⟨3, "a2.jpg", .obj [] none, "A"⟩] : List (SubmitEntry Nat)))) ["A", "B"] ∧
    collect_cbz_data .single_images (emptyCollector Nat) [1, 2, 3]
      ["a1.jpg", "b1.jpg", "a2.jpg"]
      [.obj [("Title", "t1")] none, .malformed, .obj [] none] ["A", "B", "A"] false =
    .ok (⟨[1, 3, 2], ["a1.jpg", "a2.jpg", "b1.jpg"],
          .metaList [.obj [("Title", "t1")] none, .malformed],
          ["A.cbz", "B.cbz"]⟩, emptyCollector Nat) :=
  ⟨(C1_group_isolation
      [⟨1, "a1.jpg", .obj [("Title", "t1")] none, "A"⟩,
       ⟨2, "b1.jpg", .malformed, "B"⟩,
       ⟨3, "a2.jpg", .obj [] none, "A"⟩] "A" "B"
      (by decide) (by simp [idsOf]) (by simp [idsOf]) (by
        intro e he
        fin_cases he <;> simp)).1,
   by rfl⟩

/-- C2 counterexample: on a collector with no pending group, a drain-style
call (no inputs) raises the required-inputs ValueError for BOTH force values —
it neither fails with the no-complete-groups (`NothingToEmit`) error when
`force=false`, nor returns an empty ok result when `force=true`. -/
theorem C2_empty_drain_counterexample :
    collect_cbz_data .single_images (emptyCollector Nat) [] [] [] [] false =
      .error .allInputsRequired ∧
    collect_cbz_data .single_images (emptyCollector Nat) [] [] [] [] true =
      .error .allInputsRequired ∧
    CollectErr.allInputsRequired ≠ CollectErr.noCompleteGroups :=
  ⟨rfl, rfl, by decide⟩

/-- C2 amended: when the collector holds no pending group, a drain can only be
attempted by calling `collect_cbz_data` without page inputs, and that call
fails with the "All inputs are required in single_images mode" error
regardless of `force_output`; the `NothingToEmit`/forced-empty branches of
lines 412-416 are unreachable from such calls. -/
theorem C2_empty_drain_amended {Img : Type} (st : CollectorState Img)
    (images : List Img) (filenames : List String) (metadata : List MetaRecord)
    (cbz_ids : List String) (force : Bool)
    (h : images = [] ∨ filenames = [] ∨ metadata = [] ∨ cbz_ids = []) :
    collect_cbz_data .single_images st images filenames metadata cbz_ids force =
      .error .allInputsRequired := by
  rcases h with h | h | h | h <;> subst h <;> simp [collect_cbz_data]

/-- C2 witness: the amended statement applied on an empty collector with
`force=true`. -/
theorem C2_empty_drain_witness :
    collect_cbz_data .single_images (emptyCollector Nat) [] [] [] [] true =
      .error .allInputsRequired :=
  C2_empty_drain_amended (emptyCollector Nat) [] [] [] [] true (Or.inl rfl)

/-- C4: after any submission sequence into a fresh collector, the unit drained
for an archive id carries as metadata exactly the metadata value that
accompanied the first entry submitted under that id (`find?` = first match;
later deliveries under the same id never change it), along with that id's
pages. -/
theorem C4_first_seen_metadata {Img : Type} (entries : List (SubmitEntry Img))
    (id : String) (h : id ∈ idsOf entries) :
    (drainUnits (foldSubmits (emptyCollector Img) entries))[
        (firstOccIds (idsOf entries)).indexOf id]? = some (unitOf id entries) ∧
    (unitOf id entries).metadata =
      ((entries.find? (fun e => e.cbz_id = id)).map (·.meta)).getD (.obj [] none) := by
  refine ⟨?_, rfl⟩
  have hmemF : id ∈ firstOccIds (idsOf entries) := (mem_firstOccIds _ _).mpr h
  have hlt : (firstOccIds (idsOf entries)).indexOf id < (firstOccIds (idsOf entries)).length :=
    List.indexOf_lt_length.mpr hmemF
  rw [foldSubmits_stateOf, drainUnits, drainState_stateOf]
  dsimp only
  rw [List.getElem?_map, List.getElem?_eq_getElem hlt, List.getElem_indexOf hlt]
  rfl

/-- C4 witness: two pages under the same id with different metadata; the
drained unit keeps the first record, ignoring the second. -/
theorem C4_first_seen_metadata_witness :
    (drainUnits (foldSubmits (emptyCollector Nat)
        [⟨1, "x.jpg", .obj [("Title", "first")] none, "A"⟩,
         ⟨2, "y.jpg", .obj [("Title", "second")] none, "A"⟩]))[
      (firstOccIds (idsOf
        ([⟨1, "x.jpg", .obj [("Title", "first")] none, "A"⟩,
          ⟨2, "y.jpg", .obj [("Title", "second")] none, "A"⟩] :
          List (SubmitEntry Nat)))).indexOf "A"]? =
      some (unitOf "A"
        [⟨1, "x.jpg", .obj [("Title", "first")] none, "A"⟩,
         ⟨2, "y.jpg", .obj [("Title", "second")] none, "A"⟩]) ∧
    unitOf "A" ([⟨1, "x.jpg", .obj [("Title", "first")] none, "A"⟩,
         ⟨2, "y.jpg", .obj [("Title", "second")] none, "A"⟩] :
          List (SubmitEntry Nat)) =
      ⟨[1, 2], ["x.jpg", "y.jpg"], .obj [("Title", "first")] none, "A.cbz"⟩ :=
  ⟨(C4_first_seen_metadata
      [⟨1, "x.jpg", .obj [("Title", "first")] none, "A"⟩,
       ⟨2, "y.jpg", .obj [("Title", "second")] none, "A"⟩] "A" (by simp [idsOf])).1,
   by rfl⟩

/-! ### State-emptiness lemmas for C9 -/

theorem dictMem_iff_keys {α : Type} (k : String) (d : List (String × α)) :
    dictMem k d = true ↔ k ∈ d.map Prod.fst := by
  rw [dictMem, List.any_eq_true]
  constructor
  · rintro ⟨kv, hkv, hk⟩
    simp only [decide_eq_true_eq] at hk
    rw [← hk]
    exact List.mem_map_of_mem Prod.fst hkv
  · intro h
    obtain ⟨kv, hkv, hk⟩ := List.mem_map.mp h
    exact ⟨kv, hkv, by simp [hk]⟩

theorem mem_dictSet {α : Type} (k : String) (v : α) (d : List (String × α))
    (kv : String × α) (h : kv ∈ dictSet k v d) : kv = (k, v) ∨ kv ∈ d := by
  induction d with
  | nil =>
      simp [dictSet] at h
      exact Or.inl h
  | cons kv' rest ih =>
      rw [dictSet_cons] at h
      by_cases hk : kv'.1 = k
      · rw [if_pos hk] at h
        rcases List.mem_cons.mp h with rfl | h
        · exact Or.inl rfl
        · exact Or.inr (List.mem_cons_of_mem kv' h)
      · rw [if_neg hk] at h
        rcases List.mem_cons.mp h with rfl | h
        · exact Or.inr (List.mem_cons_self kv rest)
        · rcases ih h with h | h
          · exact Or.inl h
          · exact Or.inr (List.mem_cons_of_mem kv' h)

theorem key_mem_keys_dictSet {α : Type} (k : String) (v : α) (d : List (String × α)) :
    k ∈ (dictSet k v d).map Prod.fst := by
  induction d with
  | nil => simp [dictSet]
  | cons kv rest ih =>
      rw [dictSet_cons]
      by_cases h : kv.1 = k
      · rw [if_pos h]
        simp
      · rw [if_neg h, List.map_cons]
        exact List.mem_cons_of_mem kv.1 ih

theorem keys_mono_dictSet {α : Type} (k k' : String) (v : α) (d : List (String × α))
    (h : k' ∈ d.map Prod.fst) : k' ∈ (dictSet k v d).map Prod.fst := by
  induction d with
  | nil => simp at h
  | cons kv rest ih =>
      rw [List.map_cons] at h
      rw [dictSet_cons]
      by_cases hk : kv.1 = k
      · rw [if_pos hk, List.map_cons, List.mem_cons]
        rcases List.mem_cons.mp h with rfl | h
        · exact Or.inl hk
        · exact Or.inr h
      · rw [if_neg hk, List.map_cons, List.mem_cons]
        rcases List.mem_cons.mp h with rfl | h
        · exact Or.inl rfl
        · exact Or.inr (ih h)

theorem mem_keys_dictSet {α : Type} (k k' : String) (v : α) (d : List (String × α)) :
    k' ∈ (dictSet k v d).map Prod.fst ↔ k' = k ∨ k' ∈ d.map Prod.fst := by
  constructor
  · intro h
    obtain ⟨kv, hkv, hk⟩ := List.mem_map.mp h
    rcases mem_dictSet _ _ _ _ hkv with rfl | hkv
    · exact Or.inl hk.symm
    · rw [← hk]
      exact Or.inr (List.mem_map_of_mem Prod.fst hkv)
  · rintro (rfl | h)
    · exact key_mem_keys_dictSet k' v d
    · exact keys_mono_dictSet k k' v d h

theorem SyncedState_submitOne {Img : Type} (st : CollectorState Img) (e : SubmitEntry Img)
    (h : SyncedState st) : SyncedState (submitOne st e) := by
  obtain ⟨hf, hm⟩ := h
  rw [submitOne]
  by_cases hmem : dictMem e.cbz_id st.image_groups = true
  · rw [hmem]
    simp only [if_true]
    constructor
    · intro kv hkv
      dsimp only at hkv ⊢
      rw [dictAppend, mem_keys_dictSet]
      rw [dictAppend] at hkv
      rcases mem_dictSet _ _ _ _ hkv with rfl | hkv
      · exact Or.inl rfl
      · exact Or.inr (hf kv hkv)
    · intro kv hkv
      dsimp only at hkv ⊢
      rw [dictAppend, mem_keys_dictSet]
      exact Or.inr (hm kv hkv)
  · rw [Bool.not_eq_true] at hmem
    rw [hmem]
    simp only [Bool.false_eq_true, if_false]
    constructor
    · intro kv hkv
      dsimp only at hkv ⊢
      rw [dictAppend, mem_keys_dictSet]
      rw [dictAppend] at hkv
      rcases mem_dictSet _ _ _ _ hkv with rfl | hkv
      · exact Or.inl rfl
      · rcases mem_dictSet _ _ _ _ hkv with rfl | hkv
        · exact Or.inl rfl
        · refine Or.inr ?_
          rw [mem_keys_dictSet]
          exact Or.inr (hf kv hkv)
    · intro kv hkv
      dsimp only at hkv ⊢
      rw [dictAppend, mem_keys_dictSet]
      rcases mem_dictSet _ _ _ _ hkv with rfl | hkv
      · exact Or.inl rfl
      · refine Or.inr ?_
        rw [mem_keys_dictSet]
        exact Or.inr (hm kv hkv)

theorem SyncedState_foldSubmits {Img : Type} (st : CollectorState Img)
    (entries : List (SubmitEntry Img)) (h : SyncedState st) :
    SyncedState (foldSubmits st entries) := by
  induction entries generalizing st with
  | nil => exact h
  | cons e es ih =>
      rw [foldSubmits, List.foldl_cons]
      exact ih (submitOne st e) (SyncedState_submitOne st e h)

theorem drainLoop_snd {Img : Type} (ks : List String) (st : CollectorState Img) :
    (drainLoop ks st).2 =
      ⟨ks.foldl (fun d k => dictDel k d) st.image_groups,
       ks.foldl (fun d k => dictDel k d) st.filename_groups,
       ks.foldl (fun d k => dictDel k d) st.metadata_cache⟩ := by
  induction ks generalizing st with
  | nil => rfl
  | cons k ks' ih =>
      rw [drainLoop]
      dsimp only
      rw [ih]
      rfl

theorem foldDel_nil_of_keys_subset {α : Type} (ks : List String) :
    ∀ d : List (String × α), (∀ kv ∈ d, kv.1 ∈ ks) →
      ks.foldl (fun d k => dictDel k d) d = [] := by
  induction ks with
  | nil =>
      intro d h
      cases d with
      | nil => rfl
      | cons kv rest => exact absurd (h kv (List.mem_cons_self kv rest)) (List.not_mem_nil _)
  | cons k ks' ih =>
      intro d h
      rw [List.foldl_cons]
      apply ih
      intro kv hkv
      have h1 : kv ∈ d := List.mem_of_mem_filter hkv
      have h2 : kv.1 ≠ k := by
        have := List.of_mem_filter hkv
        simpa using this
      rcases List.mem_cons.mp (h kv h1) with h3 | h3
      · exact absurd h3 h2
      · exact h3

/-- C9: every successful `collect_cbz_data` call in single_images mode leaves
all three accumulator tables empty (the drain loop runs over every key of
`image_groups` unconditionally and deletes each), for any starting state whose
tables are keyed in lockstep — i.e. no CollectionGroup ever survives a
successful invocation. -/
theorem C9_tables_empty_after_success {Img : Type} (st : CollectorState Img)
    (hsync : SyncedState st) (images : List Img) (filenames : List String)
    (metadata : List MetaRecord) (cbz_ids : List String) (force : Bool)
    (out : CollectOut Img) (st' : CollectorState Img)
    (hok : collect_cbz_data .single_images st images filenames metadata cbz_ids force =
      .ok (out, st')) :
    st'.image_groups = [] ∧ st'.filename_groups = [] ∧ st'.metadata_cache = [] := by
  simp only [collect_cbz_data] at hok
  split at hok
  · exact absurd hok (by simp)
  · have hsync1 := SyncedState_foldSubmits st
      (zip4Entries images filenames metadata cbz_ids) hsync
    set st1 := foldSubmits st (zip4Entries images filenames metadata cbz_ids) with hst1
    have hfinal : (drainState st1).2.image_groups = [] ∧
        (drainState st1).2.filename_groups = [] ∧
        (drainState st1).2.metadata_cache = [] := by
      rw [drainState, drainLoop_snd]
      refine ⟨?_, ?_, ?_⟩
      · exact foldDel_nil_of_keys_subset _ _ (fun kv hkv =>
          List.mem_map_of_mem Prod.fst hkv)
      · exact foldDel_nil_of_keys_subset _ _ hsync1.1
      · exact foldDel_nil_of_keys_subset _ _ hsync1.2
    split at hok
    · split at hok
      · rw [Except.ok.injEq, Prod.mk.injEq] at hok
        rw [← hok.2]
        exact hfinal
      · exact absurd hok (by simp)
    · rw [Except.ok.injEq, Prod.mk.injEq] at hok
      rw [← hok.2]
      exact hfinal

/-- C9 witness: a concrete successful call from a fresh collector leaves
empty tables. -/
theorem C9_tables_empty_witness :
    (emptyCollector Nat).image_groups = [] ∧
    ((⟨[], [], []⟩ : CollectorState Nat)).image_groups = [] ∧
    ((⟨[], [], []⟩ : CollectorState Nat)).filename_groups = [] ∧
    ((⟨[], [], []⟩ : CollectorState Nat)).metadata_cache = [] :=
  ⟨rfl, (C9_tables_empty_after_success (emptyCollector Nat) ⟨fun kv h => absurd h (List.not_mem_nil kv), fun kv h => absurd h (List.not_mem_nil kv)⟩
      [7] ["p.jpg"] [.malformed] ["A"] false
      ⟨[7], ["p.jpg"], .metaList [.malformed], ["A.cbz"]⟩ ⟨[], [], []⟩ (by rfl)).1,
   (C9_tables_empty_after_success (emptyCollector Nat) ⟨fun kv h => absurd h (List.not_mem_nil kv), fun kv h => absurd h (List.not_mem_nil kv)⟩
      [7] ["p.jpg"] [.malformed] ["A"] false
      ⟨[7], ["p.jpg"], .metaList [.malformed], ["A.cbz"]⟩ ⟨[], [], []⟩ (by rfl)).2.1,
   (C9_tables_empty_after_success (emptyCollector Nat) ⟨fun kv h => absurd h (List.not_mem_nil kv), fun kv h => absurd h (List.not_mem_nil kv)⟩
      [7] ["p.jpg"] [.malformed] ["A"] false
      ⟨[7], ["p.jpg"], .metaList [.malformed], ["A.cbz"]⟩ ⟨[], [], []⟩ (by rfl)).2.2⟩

/-! ### Reader lemmas (C3, C7, C10) -/

/-- C3: with the sort flag on, a start offset, and a positive page cap, the
reader's selection stage equals the spec-side pipeline: lexicographically sort
all qualifying entry names, then drop before the offset, then truncate to the
cap — ordering happens before limiting. -/
theorem C3_sort_before_offset_cap (namelist : List String)
    (start_index image_load_cap : Nat) (hcap : 0 < image_load_cap) :
    sort_offset_cap (namelist.filter isQualifying) true start_index image_load_cap =
      selectSpec namelist start_index image_load_cap := by
  simp [sort_offset_cap, selectSpec, hcap]

/-- C3 witness: `["b.jpg","a.jpg","c.jpg"]`, `start_index=1`,
`image_load_cap=1` select exactly `["b.jpg"]`. -/
theorem C3_sort_before_offset_cap_witness :
    sort_offset_cap (["b.jpg", "a.jpg", "c.jpg"].filter isQualifying) true 1 1 =
      selectSpec ["b.jpg", "a.jpg", "c.jpg"] 1 1 ∧
    selectSpec ["b.jpg", "a.jpg", "c.jpg"] 1 1 = ["b.jpg"] :=
  ⟨C3_sort_before_offset_cap ["b.jpg", "a.jpg", "c.jpg"] 1 1 (by decide), by rfl⟩

/-- C7 counterexample: an existing, `.cbz`-suffixed, valid ZIP archive with no
qualifying page entries makes the read fail with the wrapped
RuntimeError — not the ValueError class used for the invalid-archive
(`InvalidFormat`) condition. -/
theorem C7_no_pages_counterexample :
    unpack_cbz (⟨true, true, ["notes.txt"], none, fun _ => none, "7"⟩ : ZipSource Nat)
      "a.cbz" 0 0 true =
      .error (.runtimeError
        "Error processing CBZ file: No valid image files found in CBZ archive.") ∧
    PyError.runtimeError
        "Error processing CBZ file: No valid image files found in CBZ archive." ≠
      PyError.valueError "Invalid CBZ file: not a valid ZIP archive." :=
  ⟨by rfl, by decide⟩

/-- C7 amended: the reader fails with FileNotFoundError exactly when the path
does not exist; with the extension ValueError when the path lacks the `.cbz`
suffix; with the invalid-archive ValueError when the container is not a valid
ZIP; but when the archive has no qualifying page entries the failure is the
blanket-except RuntimeError wrapper (the reader's own ValueError is caught by
its `except Exception` clause and re-raised as RuntimeError). -/
theorem C7_read_error_classification {Img : Type} (zs : ZipSource Img) (p : String)
    (image_load_cap start_index : Nat) (sort_images : Bool) :
    (zs.pathExists = false →
      unpack_cbz zs p image_load_cap start_index sort_images =
        .error (.fileNotFoundError "CBZ file not found.")) ∧
    (zs.pathExists = true → strEndsWith (str_lower p) ".cbz" = false →
      unpack_cbz zs p image_load_cap start_index sort_images =
        .error (.valueError "File must have .cbz extension.")) ∧
    (zs.pathExists = true → strEndsWith (str_lower p) ".cbz" = true →
      zs.validZip = false →
      unpack_cbz zs p image_load_cap start_index sort_images =
        .error (.valueError "Invalid CBZ file: not a valid ZIP archive.")) ∧
    (zs.pathExists = true → strEndsWith (str_lower p) ".cbz" = true →
      zs.validZip = true → zs.namelist.filter isQualifying = [] →
      unpack_cbz zs p image_load_cap start_index sort_images =
        .error (.runtimeError
          "Error processing CBZ file: No valid image files found in CBZ archive.")) := by
  refine ⟨?_, ?_, ?_, ?_⟩
  · intro h1
    simp [unpack_cbz, h1]
  · intro h1 h2
    simp [unpack_cbz, h1, h2]
  · intro h1 h2 h3
    simp [unpack_cbz, h1, h2, h3]
  · intro h1 h2 h3 h4
    simp [unpack_cbz, h1, h2, h3, h4]

/-- C7 witness: the classification applied to a missing path. -/
theorem C7_read_error_classification_witness :
    unpack_cbz (⟨false, true, [], none, fun _ => none, "7"⟩ : ZipSource Nat)
      "a.cbz" 0 0 true = .error (.fileNotFoundError "CBZ file not found.") :=
  (C7_read_error_classification
    (⟨false, true, [], none, fun _ => none, "7"⟩ : ZipSource Nat) "a.cbz" 0 0 true).1 rfl

theorem takeWhile_of_all {α : Type} (p : α → Bool) (l : List α)
    (h : ∀ c ∈ l, p c = true) : l.takeWhile p = l := by
  induction l with
  | nil => rfl
  | cons a as ih =>
      rw [List.takeWhile_cons, h a (List.mem_cons_self a as)]
      rw [ih (fun c hc => h c (List.mem_cons_of_mem a hc))]
      rw [if_pos rfl]

theorem basename_of_no_slash (s : String) (h : ∀ c ∈ s.data, c ≠ '/') :
    basename s = s := by
  rw [basename, takeWhile_of_all notSlash s.data.reverse
    (fun c hc => by simpa [notSlash] using h c (List.mem_reverse.mp hc)),
    List.reverse_reverse]

theorem slash_isPrefixOf_false (l : List Char) (h : ∀ c ∈ l, c ≠ '/') :
    ("/".data.isPrefixOf l) = false := by
  cases l with
  | nil => rfl
  | cons c cs =>
      show (('/' == c) && _) = false
      have : ('/' == c) = false := by
        have := h c (List.mem_cons_self c cs)
        simp [Ne.symm this]
      rw [this, Bool.false_and]

theorem afterUnderscore_append_no_us (l r : List Char) (h : '_' ∉ l) :
    afterUnderscore (l ++ '_' :: r) = some r := by
  induction l with
  | nil => simp [afterUnderscore]
  | cons c cs ih =>
      rw [List.cons_append, afterUnderscore,
        if_neg (fun hc => h (by rw [← hc]; exact List.mem_cons_self c cs))]
      exact ih (fun hc => h (List.mem_cons_of_mem c hc))

/-- C10: the reader's id `cbz_ + hash-rendering + _ + basename(p)` is inverted
exactly by the collector's extraction (`split('_', 2)[-1]`): the recovered
path is `basename p` — never the directory component — whenever the hash
rendering contains no underscore (Python renders `hash(p)` as an optional
minus sign and digits).  Consequently the writer's derived output path for a
collector-produced path always has an empty directory part. -/
theorem C10_id_roundtrip (p hs : String) (hhs : '_' ∉ hs.data) :
    extract_cbz_path (cbz_id_of hs p) = basename p ∧
    dirname (generate_output_path "" (extract_cbz_path (cbz_id_of hs p)) "_processed") =
      "" := by
  have hdata : (cbz_id_of hs p).data =
      'c' :: 'b' :: 'z' :: '_' :: (hs.data ++ '_' :: (basename p).data) := by
    rw [cbz_id_of]
    simp [String.data_append]
  have h1 : afterUnderscore
      ('c' :: 'b' :: 'z' :: '_' :: (hs.data ++ '_' :: (basename p).data)) =
      some (hs.data ++ '_' :: (basename p).data) := by simp [afterUnderscore]
  have hex : extract_cbz_path (cbz_id_of hs p) = basename p := by
    rw [extract_cbz_path, if_pos (by rw [hdata]; simp), hdata]
    simp only [split2last, h1, afterUnderscore_append_no_us _ _ hhs]
  refine ⟨hex, ?_⟩
  rw [hex]
  have hbn : ∀ c ∈ (basename p).data, c ≠ '/' := basename_no_slash p
  have hdir : dirname (basename p) = "" := dirname_of_no_slash _ hbn
  have hbb : basename (basename p) = basename p := basename_of_no_slash _ hbn
  have hbase_no : ∀ c ∈ (splitext (basename p)).1.data, c ≠ '/' := fun c hc =>
    hbn c ((splitext_fst_isPrefix (basename p)).subset hc)
  have hf_no : ∀ c ∈ ((splitext (basename p)).1 ++ "_processed" ++ ".cbz").data, c ≠ '/' := by
    intro c hc
    simp only [String.data_append, List.mem_append] at hc
    rcases hc with (hc | hc) | hc
    · exact hbase_no c hc
    · exact (by decide : ∀ c ∈ "_processed".data, c ≠ '/') c hc
    · exact (by decide : ∀ c ∈ ".cbz".data, c ≠ '/') c hc
  rw [generate_output_path]
  rw [if_pos rfl, hdir, hbb, joinPath]
  rw [if_neg (by
    rw [strStartsWith, slash_isPrefixOf_false _ hf_no]
    simp)]
  rw [if_pos (Or.inl rfl)]
  apply dirname_of_no_slash
  intro c hc
  rw [String.data_append] at hc
  rcases List.mem_append.mp hc with hc | hc
  · exact absurd hc (List.not_mem_nil c)
  · exact hf_no c hc

/-- C10 witness: a nested source path with a negative hash rendering; the
collector recovers the bare filename and the writer's derived path has no
directory component. -/
theorem C10_id_roundtrip_witness :
    extract_cbz_path (cbz_id_of "-12345" "/home/user/comics/vol_1.cbz") =
      basename "/home/user/comics/vol_1.cbz" ∧
    dirname (generate_output_path ""
      (extract_cbz_path (cbz_id_of "-12345" "/home/user/comics/vol_1.cbz"))
      "_processed") = "" :=
  C10_id_roundtrip "/home/user/comics/vol_1.cbz" "-12345" (by decide)

/-! ### Writer lemmas (C5, C6) -/

theorem page_name_ends_in_ext (fmt : ImageFormat) (ps : Bool) (i : Nat) (orig : String) :
    ∃ X : String, page_name fmt ps i orig = X ++ extOf fmt := by
  rw [page_name]
  split
  · exact ⟨_, rfl⟩
  · exact ⟨_, rfl⟩

theorem page_name_ne_comicinfo (fmt : ImageFormat) (ps : Bool) (i : Nat) (orig : String) :
    page_name fmt ps i orig ≠ "ComicInfo.xml" := by
  obtain ⟨X, hX⟩ := page_name_ends_in_ext fmt ps i orig
  rw [hX]
  intro h
  have hdata : (X ++ extOf fmt).data = "ComicInfo.xml".data := by rw [h]
  have hlast : (X ++ extOf fmt).data.getLast? = some 'g' := by
    rw [String.data_append, List.getLast?_append]
    have : (extOf fmt).data.getLast? = some 'g' := by cases fmt <;> rfl
    rw [this]
    rfl
  rw [hdata] at hlast
  exact absurd hlast (by decide)

/-- C5 counterexample: `export_cbz` given an assembled unit with zero pages
does not fail — it succeeds and creates an archive with no page entries
(there is no `EmptyUnit` check anywhere in the writer). -/
theorem C5_empty_unit_counterexample :
    export_cbz ([] : List Nat) [] (MetaRecord.obj [("info", "x")] none) "a.cbz" "out"
      "_processed" .JPEG true = .ok ⟨"out/a_processed.cbz", []⟩ := by rfl

/-- C5 amended: the writer performs no zero-page check: for any metadata and
options, exporting an empty unit succeeds, returning the derived output path
and an archive holding only a `ComicInfo.xml` entry when the metadata is a
real record (none otherwise); the writer's only validation failure is the
images/filenames length mismatch. -/
theorem C5_no_empty_unit_check {Img : Type} (metadata : MetaRecord)
    (cbz_path output_directory suffix : String) (fmt : ImageFormat) (ps : Bool) :
    export_cbz ([] : List Img) [] metadata cbz_path output_directory suffix fmt ps =
      .ok ⟨generate_output_path output_directory cbz_path suffix,
           match create_comic_info_xml metadata with
           | some _ => ["ComicInfo.xml"]
           | none => []⟩ := by
  cases h : create_comic_info_xml metadata <;>
    simp [export_cbz, h, firstOccIds, firstOccAux]

/-- C6 counterexample: a metadata record that is valid JSON but missing all
fields (the empty object, as produced e.g. by reading a sidecar with no
recognised fields) IS round-tripped: `create_comic_info_xml` returns a
(field-less) document and the written archive contains a `ComicInfo.xml`
entry. -/
theorem C6_empty_record_counterexample :
    create_comic_info_xml (MetaRecord.obj [] none) = some ⟨[], none⟩ ∧
    export_cbz [1] ["p.jpg"] (MetaRecord.obj [] none) "a.cbz" "o" "_p" .JPEG true =
      .ok ⟨"o/a_p.cbz", ["p.jpg", "ComicInfo.xml"]⟩ :=
  ⟨by rfl, by rfl⟩

/-- C6 amended: for every error/placeholder record — unparseable JSON, or a
record carrying an `error` or `info` key, which is exactly what the reader
produces for an unparseable or absent sidecar — the writer generates no
sidecar document and the written archive has no `ComicInfo.xml` entry; the
reader's absent-sidecar record is indeed such a placeholder.  (A record that
is merely missing all fields, without such a marker, is NOT covered: it
yields an empty `ComicInfo.xml` entry, see the counterexample.) -/
theorem C6_placeholder_no_sidecar (md : MetaRecord) (h : isPlaceholder md = true) :
    create_comic_info_xml md = none ∧
    (∀ {Img : Type} (images : List Img) (filenames : List String)
      (cbz_path output_directory suffix : String) (fmt : ImageFormat) (ps : Bool)
      (r : ExportResult),
      export_cbz images filenames md cbz_path output_directory suffix fmt ps = .ok r →
      "ComicInfo.xml" ∉ r.arc_entries) ∧
    (∀ bn : String, isPlaceholder (.obj [("info", "No ComicInfo.xml found in CBZ file"),
      ("filename", bn)] none) = true) := by
  have hnone : create_comic_info_xml md = none := by
    cases md with
    | malformed => rfl
    | obj fields pages =>
        rw [isPlaceholder] at h
        rw [create_comic_info_xml]
        rw [if_pos h]
  refine ⟨hnone, ?_, ?_⟩
  · intro Img images filenames cbz_path output_directory suffix fmt ps r hok
    rw [export_cbz] at hok
    rw [hnone] at hok
    split at hok
    · exact absurd hok (by simp)
    · rw [Except.ok.injEq] at hok
      rw [← hok]
      dsimp only
      intro hmem
      rw [List.append_nil, mem_firstOccIds] at hmem
      obtain ⟨pr, _, hpr⟩ := List.mem_map.mp hmem
      exact page_name_ne_comicinfo fmt ps pr.1 pr.2.2 hpr
  · intro bn
    simp [isPlaceholder, hasKey]

/-- C6 witness: an error record produces no sidecar, and a concrete export
with it yields an archive without `ComicInfo.xml`. -/
theorem C6_placeholder_no_sidecar_witness :
    create_comic_info_xml (MetaRecord.obj [("error", "boom")] none) = none ∧
    "ComicInfo.xml" ∉ (["x.jpg"] : List String) :=
  ⟨(C6_placeholder_no_sidecar (.obj [("error", "boom")] none) (by decide)).1,
   (C6_placeholder_no_sidecar (.obj [("error", "boom")] none) (by decide)).2.1
     [1] ["x.jpg"] "a.cbz" "o" "_p" .JPEG true ⟨"o/a_p.cbz", ["x.jpg"]⟩ (by rfl)⟩

/-! ### Round-trip lemmas (C8) -/

theorem filterMap_decode_snd {Img : Type} (decode : String → Option Img) (l : List String)
    (h : ∀ f ∈ l, (decode f).isSome) :
    (l.filterMap (fun f => (decode f).map (fun i => (i, f)))).map Prod.snd = l := by
  induction l with
  | nil => rfl
  | cons f fs ih =>
      obtain ⟨i, hi⟩ := Option.isSome_iff_exists.mp (h f (List.mem_cons_self f fs))
      rw [List.filterMap_cons, hi]
      dsimp only [Option.map_some']
      rw [List.map_cons]
      rw [ih (fun g hg => h g (List.mem_cons_of_mem f hg))]

theorem filterMap_decode_length {Img : Type} (decode : String → Option Img) (l : List String)
    (h : ∀ f ∈ l, (decode f).isSome) :
    (l.filterMap (fun f => (decode f).map (fun i => (i, f)))).length = l.length := by
  have := filterMap_decode_snd decode l h
  calc (l.filterMap (fun f => (decode f).map (fun i => (i, f)))).length
      = ((l.filterMap (fun f => (decode f).map (fun i => (i, f)))).map Prod.snd).length := by
        rw [List.length_map]
    _ = l.length := by rw [this]

theorem sort_offset_cap_id (l : List String) : sort_offset_cap l true 0 0 = sortStr l := by
  simp [sort_offset_cap]

theorem replicate_headD {α : Type} (n : Nat) (x d : α) (h : 0 < n) :
    (List.replicate n x).headD d = x := by
  cases n with
  | zero => exact absurd h (by simp)
  | succ m => rfl

theorem enumFrom_zip_page_name {Img : Type} (fmt : ImageFormat) :
    ∀ (n : Nat) (images : List Img) (filenames : List String),
      images.length = filenames.length → (∀ f ∈ filenames, f ≠ "") →
      ((images.zip filenames).enumFrom n).map (fun pr => page_name fmt true pr.1 pr.2.2) =
        filenames.map (fun f => (splitext f).1 ++ extOf fmt) := by
  intro n images
  induction images generalizing n with
  | nil =>
      intro filenames hlen _
      have : filenames = [] := List.eq_nil_of_length_eq_zero hlen.symm
      subst this
      rfl
  | cons i is ih =>
      intro filenames hlen hne
      cases filenames with
      | nil => simp at hlen
      | cons f fs =>
          rw [List.zip_cons_cons, List.enumFrom_cons, List.map_cons, List.map_cons]
          have hf : page_name fmt true n f = (splitext f).1 ++ extOf fmt := by
            rw [page_name, if_pos]
            simp [hne f (List.mem_cons_self f fs)]
          rw [hf]
          rw [ih (n + 1) fs (by simpa using hlen)
            (fun g hg => hne g (List.mem_cons_of_mem f hg))]

theorem countPages_firstOcc (outNames sidecar : List String)
    (hnd : outNames.Nodup) (hq : ∀ n ∈ outNames, isQualifying n = true)
    (hs : sidecar = [] ∨ sidecar = ["ComicInfo.xml"]) :
    countPages (firstOccIds (outNames ++ sidecar)) = outNames.length := by
  have hfilter : outNames.filter isQualifying = outNames := List.filter_eq_self.mpr hq
  rcases hs with rfl | rfl
  · rw [List.append_nil, firstOccIds_of_nodup _ hnd, countPages, hfilter]
  · have hci : "ComicInfo.xml" ∉ outNames := by
      intro hmem
      exact absurd (hq _ hmem) (by decide)
    have hnd2 : (outNames ++ ["ComicInfo.xml"]).Nodup := by
      rw [List.nodup_append]
      refine ⟨hnd, by simp, ?_⟩
      intro a ha hb
      simp only [List.mem_singleton] at hb
      subst hb
      exact hci ha
    rw [firstOccIds_of_nodup _ hnd2, countPages, List.filter_append, hfilter]
    have : (["ComicInfo.xml"] : List String).filter isQualifying = [] := by decide
    rw [this, List.append_nil]

theorem unpack_eval {Img : Type} (zs : ZipSource Img) (p : String)
    (h1 : zs.pathExists = true) (h2 : strEndsWith (str_lower p) ".cbz" = true)
    (h3 : zs.validZip = true) (h4 : zs.namelist.filter isQualifying ≠ [])
    (h5 : ∀ f ∈ zs.namelist.filter isQualifying, (zs.decode f).isSome) :
    unpack_cbz zs p 0 0 true = .ok
      ⟨((sortStr (zs.namelist.filter isQualifying)).filterMap
          (fun f => (zs.decode f).map (fun i => (i, f)))).map Prod.fst,
        sortStr (zs.namelist.filter isQualifying),
        (match zs.comicInfo with
          | some sc => parse_comic_info sc
          | none => .obj [("info", "No ComicInfo.xml found in CBZ file"),
                          ("filename", basename p)] none),
        List.replicate (((sortStr (zs.namelist.filter isQualifying)).filterMap
            (fun f => (zs.decode f).map (fun i => (i, f)))).map Prod.fst).length
          (cbz_id_of zs.hashRepr p)⟩ := by
  have hsortmem : ∀ f ∈ sortStr (zs.namelist.filter isQualifying), (zs.decode f).isSome :=
    fun f hf => h5 f ((mem_sortStr _ f).mp hf)
  have hlen : ((sortStr (zs.namelist.filter isQualifying)).filterMap
      (fun f => (zs.decode f).map (fun i => (i, f)))).length =
      (sortStr (zs.namelist.filter isQualifying)).length :=
    filterMap_decode_length _ _ hsortmem
  have himgs : (((sortStr (zs.namelist.filter isQualifying)).filterMap
      (fun f => (zs.decode f).map (fun i => (i, f)))).map Prod.fst).isEmpty = false := by
    rw [Bool.eq_false_iff]
    intro hcontra
    rw [List.isEmpty_iff, List.map_eq_nil_iff, ← List.length_eq_zero, hlen,
      sortStr_length, List.length_eq_zero] at hcontra
    exact h4 hcontra
  have hsnd : ((sortStr (zs.namelist.filter isQualifying)).filterMap
      (fun f => (zs.decode f).map (fun i => (i, f)))).map Prod.snd =
      sortStr (zs.namelist.filter isQualifying) :=
    filterMap_decode_snd _ _ hsortmem
  rw [unpack_cbz, h1, h2, h3]
  simp only [Bool.not_true, Bool.false_eq_true, if_false]
  rw [if_neg (by simpa using h4)]
  rw [sort_offset_cap_id]
  dsimp only
  rw [himgs]
  simp only [Bool.false_eq_true, if_false]
  rw [hsnd]

/-- C8 amended: for an existing, `.cbz`-suffixed, valid archive whose
qualifying page entries all decode, the read → batch-collect → write pipeline
succeeds and the output archive has exactly as many page entries as the
source has qualifying entries, PROVIDED the derived output names (original
name with the extension replaced by the target format's) are pairwise
distinct; colliding derived names overwrite one another in the writer's
temporary directory (see the counterexample). -/
theorem C8_roundtrip_page_count {Img : Type} (zs : ZipSource Img) (p od sfx : String)
    (h1 : zs.pathExists = true) (h2 : strEndsWith (str_lower p) ".cbz" = true)
    (h3 : zs.validZip = true) (h4 : zs.namelist.filter isQualifying ≠ [])
    (h5 : ∀ f ∈ zs.namelist.filter isQualifying, (zs.decode f).isSome)
    (h6 : ((sortStr (zs.namelist.filter isQualifying)).map
      (fun f => (splitext f).1 ++ ".jpg")).Nodup) :
    ∃ r : ExportResult,
      cbz_pipeline zs p od sfx .JPEG true = .ok r ∧
      countPages r.arc_entries = (zs.namelist.filter isQualifying).length := by
  have hsortmem : ∀ f ∈ sortStr (zs.namelist.filter isQualifying), (zs.decode f).isSome :=
    fun f hf => h5 f ((mem_sortStr _ f).mp hf)
  have hlen : ((sortStr (zs.namelist.filter isQualifying)).filterMap
      (fun f => (zs.decode f).map (fun i => (i, f)))).length =
      (sortStr (zs.namelist.filter isQualifying)).length :=
    filterMap_decode_length _ _ hsortmem
  have hqpos : 0 < (zs.namelist.filter isQualifying).length :=
    List.length_pos.mpr h4
  have himglen : (((sortStr (zs.namelist.filter isQualifying)).filterMap
      (fun f => (zs.decode f).map (fun i => (i, f)))).map Prod.fst).length =
      (zs.namelist.filter isQualifying).length := by
    rw [List.length_map, hlen, sortStr_length]
  have himgpos : 0 < (((sortStr (zs.namelist.filter isQualifying)).filterMap
      (fun f => (zs.decode f).map (fun i => (i, f)))).map Prod.fst).length := by
    rw [himglen]
    exact hqpos
  have hqual : ∀ f ∈ sortStr (zs.namelist.filter isQualifying), isQualifying f = true :=
    fun f hf => (List.mem_filter.mp ((mem_sortStr _ f).mp hf)).2
  have hne : ∀ f ∈ sortStr (zs.namelist.filter isQualifying), f ≠ "" :=
    fun f hf => isQualifying_ne_empty f (hqual f hf)
  rw [cbz_pipeline, unpack_eval zs p h1 h2 h3 h4 h5]
  simp only [collect_cbz_data]
  rw [show (((sortStr (zs.namelist.filter isQualifying)).filterMap
      (fun f => (zs.decode f).map (fun i => (i, f)))).map Prod.fst).isEmpty = false by
    rw [Bool.eq_false_iff]
    intro hcontra
    rw [List.isEmpty_iff, ← List.length_eq_zero, himglen] at hcontra
    omega]
  simp only [Bool.false_eq_true, if_false]
  rw [replicate_headD _ _ _ himgpos]
  rw [export_cbz]
  rw [if_neg (by
    rw [List.length_map, hlen]
    intro hcontra
    exact hcontra rfl)]
  dsimp only [List.headD]
  rw [List.enum]
  rw [enumFrom_zip_page_name .JPEG 0 _ _
    (by rw [List.length_map, hlen]) hne]
  cases hcc : create_comic_info_xml
      (match zs.comicInfo with
        | some sc => parse_comic_info sc
        | none => .obj [("info", "No ComicInfo.xml found in CBZ file"),
                        ("filename", basename p)] none) with
  | none =>
      refine ⟨_, rfl, ?_⟩
      dsimp only [extOf]
      rw [countPages_firstOcc _ [] h6
        (by
          intro n hn
          obtain ⟨f, hf, rfl⟩ := List.mem_map.mp hn
          exact isQualifying_derived f (hqual f hf) .JPEG)
        (Or.inl rfl)]
      rw [List.length_map, sortStr_length]
  | some d =>
      refine ⟨_, rfl, ?_⟩
      dsimp only [extOf]
      rw [countPages_firstOcc _ ["ComicInfo.xml"] h6
        (by
          intro n hn
          obtain ⟨f, hf, rfl⟩ := List.mem_map.mp hn
          exact isQualifying_derived f (hqual f hf) .JPEG)
        (Or.inr rfl)]
      rw [List.length_map, sortStr_length]

/-- C8 counterexample: an archive with the two qualifying, decodable entries
`x.jpg` and `x.png` (N = 2) round-trips through read → batch-collect → write
into an archive with a single page entry: both pages derive the output name
`x.jpg` and the second overwrites the first in the writer's temporary
directory. -/
theorem C8_collision_counterexample :
    cbz_pipeline (⟨true, true, ["x.jpg", "x.png"], none, fun _ => some 0, "7"⟩ :
        ZipSource Nat) "a.cbz" "o" "_p" .JPEG true =
      .ok ⟨"o/a_p.cbz", ["x.jpg"]⟩ ∧
    countPages ["x.jpg"] = 1 ∧
    ((⟨true, true, ["x.jpg", "x.png"], none, fun _ => some 0, "7"⟩ :
        ZipSource Nat).namelist.filter isQualifying).length = 2 :=
  ⟨by rfl, by rfl, by rfl⟩

/-- C8 witness: two distinct names round-trip to exactly two page entries. -/
theorem C8_roundtrip_page_count_witness :
    ∃ r : ExportResult,
      cbz_pipeline (⟨true, true, ["b.jpg", "a.jpg"], none, fun _ => some 0, "7"⟩ :
        ZipSource Nat) "a.cbz" "o" "_p" .JPEG true = .ok r ∧
      countPages r.arc_entries = 2 :=
  C8_roundtrip_page_count
    (⟨true, true, ["b.jpg", "a.jpg"], none, fun _ => some 0, "7"⟩ : ZipSource Nat)
    "a.cbz" "o" "_p" (by rfl) (by decide) (by rfl) (by decide) (by decide) (by decide)
